import Mathlib

/-!
# Property-backed GPS provider (`propgps.c`)

A shallow embedding of the provider of `src/propgps.c`: the context record
`prop_gps_context`, the interface functions `prop_gps_init`, `prop_gps_cleanup`,
`prop_gps_start`, `prop_gps_stop`, the worker `prop_gps_thread_main`, and the
device factory `open_gps`.

Two views of the same code are given, built from the same pieces:

* `prop_gps_thread_main` is the worker function run on its own, the values it
  reads from outside (property store, clock, the shared `stopped` flag) being
  supplied per cycle;
* `step` is the statement-by-statement interleaving of the caller thread and
  the worker threads over the shared context.

`step_entry_eq_thread_entry` and `step_cycle_eq_thread_loop` relate the two.

What the C file takes from headers and libraries that are not part of the
repository (`strtod`, the flag constants of `hardware/gps.h`, `sizeof`) is
collected in `Platform`; the general theorems hold for every platform.
`libcPlatform` instantiates it with a model of `strtod` after the C standard,
for evaluation on concrete inputs.
-/

namespace PropGps

/-! ## Data model -/

/-- What `propgps.c` takes from libc and from `hardware/gps.h`. `D` stands for
the C type `double`; `zero` is the double whose bytes are all zero. -/
structure Platform (D : Type) where
  strtod : String → D
  zero : D
  GPS_LOCATION_HAS_LAT_LONG : Nat
  GPS_LOCATION_HAS_ACCURACY : Nat
  sizeof_GpsLocation : Nat

/-- `EXIT_SUCCESS` of `stdlib.h`. -/
def EXIT_SUCCESS : Int := 0

/-- `GPS_LAT_PROP` (line 33). -/
def GPS_LAT_PROP : String := "gps.latitude"

/-- `GPS_LONG_PROP` (line 34). -/
def GPS_LONG_PROP : String := "gps.longitude"

/-- The fields of `GpsLocation` that `propgps.c` touches. `accuracy` is a C
`float` that only ever holds 0 or 1; `timestamp` is in milliseconds. -/
structure GpsLocation (D : Type) where
  size : Nat
  flags : Nat
  latitude : D
  longitude : D
  accuracy : Int
  timestamp : Int
deriving DecidableEq, Repr

/-- A thread of the process: the thread that calls the interface, or a worker
created through `create_thread_cb`, named by its handle. -/
inductive Actor where
  | caller
  | worker (handle : Nat)
deriving DecidableEq, Repr

/-- State of the `pthread_mutex_t` inside the context. `zeroed` is the state
left by the `memset` of `open_gps`, before any `pthread_mutex_init`. -/
inductive Mutex where
  | zeroed
  | unlocked
  | locked (owner : Actor)
  | destroyed
deriving DecidableEq, Repr

/-- The record `struct prop_gps_context` (lines 36-44). `cb` is a pointer to the
host's `GpsCallbacks` table: `none` is `NULL`, `some k` is table `k`. `thread`
is the `pthread_t` handle. -/
structure prop_gps_context (D : Type) where
  accuracy : Int
  cb : Option Nat
  initialized : Bool
  location : GpsLocation D
  mutex : Mutex
  stopped : Bool
  thread : Nat
deriving DecidableEq, Repr

/-- The interface functions, for naming a return in the log. -/
inductive Api where
  | init
  | start
  | stop
  | cleanup
  | inject_time
  | inject_location
  | delete_aiding_data
  | set_position_mode
  | get_extension
deriving DecidableEq, Repr

/-- Observable actions of the code, in program order: library calls, accesses to
the shared `stopped` field, calls into the host's callback table and returns of
interface functions. -/
inductive Event (D : Type) where
  | mutex_init
  | mutex_destroy
  | lock (a : Actor)
  | unlock (a : Actor)
  | read_stopped (a : Actor) (v : Bool)
  | write_stopped (a : Actor) (v : Bool)
  | create_thread (sink : Nat) (handle : Nat)
  | join (handle : Nat) (exists_ : Bool)
  | property_get (key : String) (value : String)
  | location_cb (sink : Nat) (fix : GpsLocation D)
  | select (usec : Nat)
  | returned (f : Api) (code : Option Int)
deriving DecidableEq, Repr

/-- The property store: key/value pairs, first match wins. -/
abbrev Store := List (String × String)

/-! ## External collaborators -/

/-- Modelled from the spec: `readScalar(name, default)` of the property store,
which is not part of the repository. It returns the stored value for `name` when
one is present and non-empty, and `default` otherwise. -/
def readScalar (store : Store) (name : String) (default : String) : String :=
  match store.lookup name with
  | some v => if v.length = 0 then default else v
  | none => default

/-- Modelled from the spec: `property_get(key, value, default_value)` of
`cutils/properties.h`, which is not part of the repository. It fills the buffer
with `readScalar key default_value` and returns the length of what it wrote. -/
def property_get (store : Store) (key : String) (default_value : String) : Nat × String :=
  let v := readScalar store key default_value
  (v.length, v)

/-- State of `pthread_mutex_init`: the mutex is constructed. -/
def pthread_mutex_init (_m : Mutex) : Mutex := Mutex.unlocked

/-- State after `pthread_mutex_destroy`. -/
def pthread_mutex_destroy (_m : Mutex) : Mutex := Mutex.destroyed

/-- Effect of `pthread_mutex_lock` called by `a`: `none` when the call blocks
(the mutex is held), the new mutex state otherwise. On a mutex that is not
constructed the call is taken to return at once without acquiring anything (the
code ignores the return value). -/
def pthread_mutex_lock (a : Actor) (m : Mutex) : Option Mutex :=
  match m with
  | Mutex.unlocked => some (Mutex.locked a)
  | Mutex.locked _ => none
  | Mutex.zeroed => some Mutex.zeroed
  | Mutex.destroyed => some Mutex.destroyed

/-- Effect of `pthread_mutex_unlock` called by `a`: releases a mutex that `a`
holds, and changes nothing otherwise. -/
def pthread_mutex_unlock (a : Actor) (m : Mutex) : Mutex :=
  match m with
  | Mutex.locked o => if o = a then Mutex.unlocked else Mutex.locked o
  | other => other

/-! ## Interface functions -/

/-- Result of an interface function: the context it leaves, the actions it
performed and the value it returns. -/
structure Outcome (D : Type) where
  ctx : prop_gps_context D
  events : List (Event D)
  code : Int

/-- The context as `open_gps` leaves it (line 210): every byte zero. -/
def zero_ctx {D : Type} (P : Platform D) : prop_gps_context D :=
  { accuracy := 0
    cb := none
    initialized := false
    location :=
      { size := 0, flags := 0, latitude := P.zero, longitude := P.zero,
        accuracy := 0, timestamp := 0 }
    mutex := Mutex.zeroed
    stopped := false
    thread := 0 }

/-- `prop_gps_init` (lines 97-110). -/
def prop_gps_init {D : Type} (P : Platform D) (callbacks : Option Nat)
    (ctx : prop_gps_context D) : Outcome D :=
  if !ctx.initialized then
    { ctx :=
        { ctx with
          location := { ctx.location with size := P.sizeof_GpsLocation }
          cb := callbacks
          mutex := pthread_mutex_init ctx.mutex
          initialized := true }
      events := [Event.mutex_init]
      code := EXIT_SUCCESS }
  else
    { ctx := ctx, events := [], code := EXIT_SUCCESS }

/-- `prop_gps_cleanup` (lines 112-117). -/
def prop_gps_cleanup {D : Type} (ctx : prop_gps_context D) :
    prop_gps_context D × List (Event D) :=
  ({ ctx with mutex := pthread_mutex_destroy ctx.mutex }, [Event.mutex_destroy])

/-- `prop_gps_start` (lines 120-131). `handle` is the value the host's
`create_thread_cb` returns if it is called. The result is `none` when the
function dereferences a `NULL` callback table. -/
def prop_gps_start {D : Type} (handle : Nat) (ctx : prop_gps_context D) :
    Option (Outcome D) :=
  if ctx.stopped then
    match ctx.cb with
    | none => none
    | some sink =>
      some
        { ctx := { ctx with stopped := false, thread := handle }
          events :=
            [Event.read_stopped Actor.caller true,
             Event.write_stopped Actor.caller false,
             Event.create_thread sink handle]
          code := EXIT_SUCCESS }
  else
    some
      { ctx := ctx
        events := [Event.read_stopped Actor.caller false]
        code := EXIT_SUCCESS }

/-- `prop_gps_inject_time` (lines 151-156). -/
def prop_gps_inject_time {D : Type} (ctx : prop_gps_context D) : Outcome D :=
  { ctx := ctx, events := [], code := EXIT_SUCCESS }

/-- `prop_gps_inject_location` (lines 158-163). -/
def prop_gps_inject_location {D : Type} (ctx : prop_gps_context D) : Outcome D :=
  { ctx := ctx, events := [], code := EXIT_SUCCESS }

/-- `prop_gps_delete_aiding_data` (lines 165-169). -/
def prop_gps_delete_aiding_data {D : Type} (ctx : prop_gps_context D) :
    prop_gps_context D :=
  ctx

/-- `prop_gps_set_position_mode` (lines 171-175). -/
def prop_gps_set_position_mode {D : Type} (ctx : prop_gps_context D) : Outcome D :=
  { ctx := ctx, events := [], code := EXIT_SUCCESS }

/-- `prop_gps_get_extension` (lines 177-183): the result is always `NULL`. -/
def prop_gps_get_extension (_name : String) : Option Nat := none

/-! ## The worker, piece by piece -/

/-- Lines 66-67 of `prop_gps_thread_main`: the first read of `stopped`, made
without the mutex, and the assignment of the validity flags. The result is the
context and the local `active`. -/
def thread_entry {D : Type} (P : Platform D) (ctx : prop_gps_context D) :
    prop_gps_context D × Bool :=
  ({ ctx with
      location :=
        { ctx.location with
          flags := P.GPS_LOCATION_HAS_LAT_LONG ||| P.GPS_LOCATION_HAS_ACCURACY } },
   !ctx.stopped)

/-- Lines 70-72: read the latitude property into the local buffer and, when
`property_get` returns non-zero, store its `strtod` in the location. The result
is the location and the buffer. -/
def poll_latitude {D : Type} (P : Platform D) (store : Store) (loc : GpsLocation D) :
    GpsLocation D × String :=
  let r := property_get store GPS_LAT_PROP "0"
  (if r.1 ≠ 0 then { loc with latitude := P.strtod r.2 } else loc, r.2)

/-- Lines 74-76: the same for the longitude property. -/
def poll_longitude {D : Type} (P : Platform D) (store : Store) (loc : GpsLocation D) :
    GpsLocation D × String :=
  let r := property_get store GPS_LONG_PROP "0"
  (if r.1 ≠ 0 then { loc with longitude := P.strtod r.2 } else loc, r.2)

/-- Lines 79-81: the fixed accuracy and the timestamp; `now` is what `now_ms()`
returns, as stored in the integer `timestamp` field. -/
def stamp {D : Type} (now : Int) (loc : GpsLocation D) : GpsLocation D :=
  { loc with accuracy := 1, timestamp := now }

/-- The constant written to `tv.tv_usec` at line 89. -/
def POLL_USEC : Nat := 50000

/-! ## The worker on its own -/

/-- What one cycle of the loop reads from outside the worker: the property store
as found at line 70 and at line 74, the clock at line 81, and the value of the
shared `stopped` field at line 85. -/
structure CycleInput where
  store_lat : Store
  store_lon : Store
  now : Int
  stopped : Bool

/-- How a run of the worker function ended. -/
inductive Status where
  | returned
  | out_of_fuel
  | null_callback
deriving DecidableEq, Repr

/-- A run of `prop_gps_thread_main`: the location record it leaves, its actions
in program order, and how it ended. -/
structure ThreadRun (D : Type) where
  location : GpsLocation D
  events : List (Event D)
  status : Status

/-- The loop of lines 69-92. `fuel` bounds the number of loop tests, `k` is the
index of the cycle, `active` the local of that name. -/
def thread_loop {D : Type} (P : Platform D) (handle : Nat) (cb : Option Nat)
    (input : Nat → CycleInput) :
    Nat → Nat → Bool → GpsLocation D → ThreadRun D
  | 0, _, _, loc => { location := loc, events := [], status := Status.out_of_fuel }
  | fuel + 1, k, active, loc =>
    if active then
      let i := input k
      let lat := poll_latitude P i.store_lat loc
      let lon := poll_longitude P i.store_lon lat.1
      let fix := stamp i.now lon.1
      match cb with
      | none =>
        { location := fix
          events :=
            [Event.property_get GPS_LAT_PROP lat.2,
             Event.property_get GPS_LONG_PROP lon.2]
          status := Status.null_callback }
      | some sink =>
        let rest := thread_loop P handle cb input fuel (k + 1) (!i.stopped) fix
        { rest with
          events :=
            [Event.property_get GPS_LAT_PROP lat.2,
             Event.property_get GPS_LONG_PROP lon.2,
             Event.location_cb sink fix,
             Event.lock (Actor.worker handle),
             Event.read_stopped (Actor.worker handle) i.stopped,
             Event.unlock (Actor.worker handle),
             Event.select POLL_USEC] ++ rest.events }
    else
      { location := loc, events := [], status := Status.returned }

/-- `prop_gps_thread_main` (lines 57-93), run as thread `handle` on the context
`ctx` found at entry, with the outside values of cycle `k` given by `input k`. -/
def prop_gps_thread_main {D : Type} (P : Platform D) (handle : Nat)
    (ctx : prop_gps_context D) (input : Nat → CycleInput) (fuel : Nat) : ThreadRun D :=
  let e := thread_entry P ctx
  let r := thread_loop P handle ctx.cb input fuel 0 e.2 e.1.location
  { r with events := Event.read_stopped (Actor.worker handle) ctx.stopped :: r.events }

/-- The fixes handed to `location_cb`, in order. -/
def emissions {D : Type} : List (Event D) → List (GpsLocation D)
  | [] => []
  | Event.location_cb _ fix :: es => fix :: emissions es
  | _ :: es => emissions es

/-- The durations of the `select` waits, in order. -/
def waits {D : Type} : List (Event D) → List Nat
  | [] => []
  | Event.select usec :: es => usec :: waits es
  | _ :: es => waits es

/-! ## Caller and workers interleaved -/

/-- Program points of `prop_gps_thread_main`, named after the statement that is
executed next: `entry` lines 59-67, `test` line 69, `latitude` lines 70-72,
`longitude` lines 74-76, `emit` lines 79-82, `lock` line 84, `read` line 85,
`unlock` line 86, `wait` lines 89-91, `done` after line 93. -/
inductive WorkerPc where
  | entry
  | test
  | latitude
  | longitude
  | emit
  | lock
  | read
  | unlock
  | wait
  | done
deriving DecidableEq, Repr

/-- A thread created by `create_thread_cb` and not yet joined: its handle, its
program point and its locals. -/
structure Worker where
  handle : Nat
  pc : WorkerPc
  active : Bool
  latitude : String
  longitude : String
deriving DecidableEq, Repr

/-- The thread as `create_thread_cb` creates it, about to enter
`prop_gps_thread_main`. -/
def Worker.spawn (handle : Nat) : Worker :=
  { handle := handle, pc := WorkerPc.entry, active := false, latitude := "", longitude := "" }

/-- Program points of the caller thread: `idle` between interface calls, the
others inside `prop_gps_stop`, named after the statement executed next (lines
140, 141, 142, 144). -/
inductive CallerPc where
  | idle
  | stop_lock
  | stop_write
  | stop_unlock
  | stop_join
deriving DecidableEq, Repr

/-- The process: the context, the workers not yet joined, the number of threads
created so far, the program point of the caller, the property store, the clock
and the log of actions. -/
structure System (D : Type) where
  ctx : prop_gps_context D
  workers : List Worker
  created : Nat
  caller : CallerPc
  store : Store
  now : Int
  trace : List (Event D)

/-- The process right after `open_gps` (lines 204-219): the context is zeroed and
no interface function has been called. -/
def open_gps {D : Type} (P : Platform D) (store : Store) (now : Int) : System D :=
  { ctx := zero_ctx P
    workers := []
    created := 0
    caller := CallerPc.idle
    store := store
    now := now
    trace := [] }

/-- What can happen next: an interface call by the caller (when it is between
calls), the next statement of the caller inside `prop_gps_stop`, the next
statement of a worker, a write to the property store from outside, or a change
of the wall clock. -/
inductive Label where
  | init (callbacks : Option Nat)
  | start
  | stop
  | cleanup
  | inject_time
  | inject_location
  | delete_aiding_data
  | set_position_mode
  | get_extension (name : String)
  | caller
  | worker (handle : Nat)
  | property_set (key : String) (value : String)
  | clock (now : Int)
deriving DecidableEq, Repr

/-- One statement of worker `w` on the context `ctx`; `none` when the worker is
blocked on the mutex, has returned, or dereferences a `NULL` callback table. -/
def worker_step {D : Type} (P : Platform D) (store : Store) (now : Int)
    (ctx : prop_gps_context D) (w : Worker) :
    Option (prop_gps_context D × Worker × List (Event D)) :=
  let me := Actor.worker w.handle
  match w.pc with
  | WorkerPc.entry =>
    let e := thread_entry P ctx
    some (e.1, { w with pc := WorkerPc.test, active := e.2, latitude := "", longitude := "" },
      [Event.read_stopped me ctx.stopped])
  | WorkerPc.test =>
    some (ctx, { w with pc := if w.active then WorkerPc.latitude else WorkerPc.done }, [])
  | WorkerPc.latitude =>
    let r := poll_latitude P store ctx.location
    some ({ ctx with location := r.1 }, { w with pc := WorkerPc.longitude, latitude := r.2 },
      [Event.property_get GPS_LAT_PROP r.2])
  | WorkerPc.longitude =>
    let r := poll_longitude P store ctx.location
    some ({ ctx with location := r.1 }, { w with pc := WorkerPc.emit, longitude := r.2 },
      [Event.property_get GPS_LONG_PROP r.2])
  | WorkerPc.emit =>
    let fix := stamp now ctx.location
    match ctx.cb with
    | none => none
    | some sink =>
      some ({ ctx with location := fix }, { w with pc := WorkerPc.lock },
        [Event.location_cb sink fix])
  | WorkerPc.lock =>
    match pthread_mutex_lock me ctx.mutex with
    | none => none
    | some m => some ({ ctx with mutex := m }, { w with pc := WorkerPc.read }, [Event.lock me])
  | WorkerPc.read =>
    some (ctx, { w with pc := WorkerPc.unlock, active := !ctx.stopped },
      [Event.read_stopped me ctx.stopped])
  | WorkerPc.unlock =>
    some ({ ctx with mutex := pthread_mutex_unlock me ctx.mutex },
      { w with pc := WorkerPc.wait }, [Event.unlock me])
  | WorkerPc.wait =>
    some (ctx, { w with pc := WorkerPc.test }, [Event.select POLL_USEC])
  | WorkerPc.done => none

/-- `prop_gps_stop` (lines 134-148), one statement of the caller at a time. At
`idle` the caller enters the function and tests `initialized` (line 139): it
goes on to the lock, or returns at once. `pthread_join` returns once the thread
named by `ctx.thread` has returned, and removes it; when no such thread exists
the call is taken to return at once. The result is `none` when the caller is
blocked. -/
def prop_gps_stop {D : Type} (s : System D) : Option (System D) :=
  match s.caller with
  | CallerPc.idle =>
    if s.ctx.initialized then some { s with caller := CallerPc.stop_lock }
    else some { s with trace := s.trace ++ [Event.returned Api.stop (some EXIT_SUCCESS)] }
  | CallerPc.stop_lock =>
    match pthread_mutex_lock Actor.caller s.ctx.mutex with
    | none => none
    | some m =>
      some { s with
        ctx := { s.ctx with mutex := m }
        caller := CallerPc.stop_write
        trace := s.trace ++ [Event.lock Actor.caller] }
  | CallerPc.stop_write =>
    some { s with
      ctx := { s.ctx with stopped := true }
      caller := CallerPc.stop_unlock
      trace := s.trace ++ [Event.write_stopped Actor.caller true] }
  | CallerPc.stop_unlock =>
    some { s with
      ctx := { s.ctx with mutex := pthread_mutex_unlock Actor.caller s.ctx.mutex }
      caller := CallerPc.stop_join
      trace := s.trace ++ [Event.unlock Actor.caller] }
  | CallerPc.stop_join =>
    match s.workers.find? (fun w => w.handle = s.ctx.thread) with
    | none =>
      some { s with
        caller := CallerPc.idle
        trace := s.trace ++
          [Event.join s.ctx.thread false, Event.returned Api.stop (some EXIT_SUCCESS)] }
    | some w =>
      if w.pc = WorkerPc.done then
        some { s with
          workers := s.workers.filter (fun x => x.handle ≠ s.ctx.thread)
          caller := CallerPc.idle
          trace := s.trace ++
            [Event.join s.ctx.thread true, Event.returned Api.stop (some EXIT_SUCCESS)] }
      else none

/-- The threads the host creates for the `create_thread_cb` calls in a list of
actions. -/
def spawned {D : Type} : List (Event D) → List Worker
  | [] => []
  | Event.create_thread _ handle :: es => Worker.spawn handle :: spawned es
  | _ :: es => spawned es

/-- An interface call made by the caller while it is between calls; `none` when
the call crashes. The call of `prop_gps_stop` is its first statement, the test
of line 139; the statements inside the `if` are taken by later steps of the
caller. -/
def call {D : Type} (P : Platform D) (s : System D) : Label → Option (System D)
  | Label.init callbacks =>
    let r := prop_gps_init P callbacks s.ctx
    some { s with
      ctx := r.ctx
      trace := s.trace ++ r.events ++ [Event.returned Api.init (some r.code)] }
  | Label.start =>
    match prop_gps_start (s.created + 1) s.ctx with
    | none => none
    | some r =>
      some { s with
        ctx := r.ctx
        workers := s.workers ++ spawned r.events
        created := s.created + (spawned r.events).length
        trace := s.trace ++ r.events ++ [Event.returned Api.start (some r.code)] }
  | Label.stop => prop_gps_stop s
  | Label.cleanup =>
    let r := prop_gps_cleanup s.ctx
    some { s with ctx := r.1, trace := s.trace ++ r.2 ++ [Event.returned Api.cleanup none] }
  | Label.inject_time =>
    let r := prop_gps_inject_time s.ctx
    some { s with
      ctx := r.ctx
      trace := s.trace ++ r.events ++ [Event.returned Api.inject_time (some r.code)] }
  | Label.inject_location =>
    let r := prop_gps_inject_location s.ctx
    some { s with
      ctx := r.ctx
      trace := s.trace ++ r.events ++ [Event.returned Api.inject_location (some r.code)] }
  | Label.delete_aiding_data =>
    some { s with
      ctx := prop_gps_delete_aiding_data s.ctx
      trace := s.trace ++ [Event.returned Api.delete_aiding_data none] }
  | Label.set_position_mode =>
    let r := prop_gps_set_position_mode s.ctx
    some { s with
      ctx := r.ctx
      trace := s.trace ++ r.events ++ [Event.returned Api.set_position_mode (some r.code)] }
  | Label.get_extension name =>
    some { s with
      trace := s.trace ++
        [Event.returned Api.get_extension ((prop_gps_get_extension name).map Int.ofNat)] }
  | _ => none

/-- The step relation, as a function: the state after `l`, or `none` when `l`
cannot happen in `s` (the thread is blocked or has returned, the caller is in
the middle of another call, or the step crashes). -/
def step {D : Type} (P : Platform D) (s : System D) (l : Label) : Option (System D) :=
  match l with
  | Label.caller => if s.caller = CallerPc.idle then none else prop_gps_stop s
  | Label.worker h =>
    match s.workers.find? (fun w => w.handle = h) with
    | none => none
    | some w =>
      match worker_step P s.store s.now s.ctx w with
      | none => none
      | some r =>
        some { s with
          ctx := r.1
          workers := s.workers.map (fun x => if x.handle = h then r.2.1 else x)
          trace := s.trace ++ r.2.2 }
  | Label.property_set key value => some { s with store := (key, value) :: s.store }
  | Label.clock now => some { s with now := now }
  | other => if s.caller = CallerPc.idle then call P s other else none

/-- The state after a schedule, `none` when some step of it cannot happen. -/
def run {D : Type} (P : Platform D) (s : System D) : List Label → Option (System D)
  | [] => some s
  | l :: ls =>
    match step P s l with
    | none => none
    | some s' => run P s' ls

/-- A whole call of `prop_gps_stop` by the caller: the call and the four
statements inside the `if`. -/
def stop_call : List Label :=
  [Label.stop, Label.caller, Label.caller, Label.caller, Label.caller]

/-! ## A model of `strtod`, for evaluation on concrete inputs -/

/-- A value of the C type `double` as far as the text-to-number conversion can
tell values apart: a signed finite value, a signed infinity, or a NaN. A finite
value carries the exact magnitude of the text converted; the rounding to the
nearest representable double and the overflow to infinity are not modelled. -/
inductive Double where
  | finite (negative : Bool) (magnitude : ℚ)
  | infinite (negative : Bool)
  | nan
deriving DecidableEq, Repr

/-- The characters `isspace` accepts in the C locale: space and `\t` to `\r`. -/
def is_space (c : Char) : Bool :=
  c.toNat = 32 || (9 ≤ c.toNat && c.toNat ≤ 13)

/-- The characters `isxdigit` accepts. -/
def is_hex_digit (c : Char) : Bool :=
  c.isDigit || (97 ≤ c.toNat && c.toNat ≤ 102) || (65 ≤ c.toNat && c.toNat ≤ 70)

/-- The value of a decimal or hexadecimal digit. -/
def digit_value (c : Char) : Nat :=
  if c.isDigit then c.toNat - 48
  else if 97 ≤ c.toNat then c.toNat - 87
  else c.toNat - 55

/-- The value of a run of digits in base `base`. -/
def number_of (base : Nat) (ds : List Char) : Nat :=
  ds.foldl (fun acc c => base * acc + digit_value c) 0

/-- An optional sign and what follows it; the flag is set for `-`. -/
def split_sign (cs : List Char) : Bool × List Char :=
  match cs with
  | '-' :: r => (true, r)
  | '+' :: r => (false, r)
  | r => (false, r)

/-- The exponent part at the head of `cs`: the marker (`e` or `p`, either case),
an optional sign and a non-empty run of decimal digits; 0 when `cs` does not
start with such a part. -/
def exponent_part (marker : Char) (cs : List Char) : Int :=
  match cs with
  | [] => 0
  | m :: rest =>
    if m.toLower = marker then
      let signed := split_sign rest
      let ds := signed.2.takeWhile Char.isDigit
      if ds.isEmpty then 0
      else if signed.1 then -(number_of 10 ds : Int) else (number_of 10 ds : Int)
    else 0

/-- The rational `m * base ^ e`. -/
def scale (m : Nat) (base : Nat) (e : Int) : ℚ :=
  if 0 ≤ e then mkRat ((m * base ^ e.toNat : Nat) : Int) 1
  else mkRat (m : Int) (base ^ (-e).toNat)

/-- The digits after a radix point at the head of `cs`, and what follows them. -/
def split_fraction (digit : Char → Bool) (cs : List Char) : List Char × List Char :=
  match cs with
  | '.' :: t => (t.takeWhile digit, t.dropWhile digit)
  | t => ([], t)

/-- The decimal floating constant at the head of `cs`: digits with an optional
radix point (at least one digit), then an optional exponent part; `none` when
`cs` does not start with one. -/
def decimal_value (cs : List Char) : Option ℚ :=
  let whole := cs.takeWhile Char.isDigit
  let f := split_fraction Char.isDigit (cs.dropWhile Char.isDigit)
  if whole.isEmpty && f.1.isEmpty then none
  else some (scale (number_of 10 (whole ++ f.1)) 10 (exponent_part 'e' f.2 - f.1.length))

/-- The hexadecimal floating constant at the head of `cs`: `0x` or `0X`, hex
digits with an optional radix point (at least one digit), then an optional
binary exponent part; `none` when `cs` does not start with one. -/
def hexadecimal_value (cs : List Char) : Option ℚ :=
  match cs with
  | z :: x :: t =>
    if z = '0' && x.toLower = 'x' then
      let whole := t.takeWhile is_hex_digit
      let f := split_fraction is_hex_digit (t.dropWhile is_hex_digit)
      if whole.isEmpty && f.1.isEmpty then none
      else some (scale (number_of 16 (whole ++ f.1)) 2 (exponent_part 'p' f.2 - 4 * f.1.length))
    else none
  | _ => none

/-- The function `strtod(s, NULL)` of the C library, after its description in the
C standard: leading white space is skipped, a sign is optional, and the longest
initial part that is a hexadecimal or decimal floating constant, `inf`,
`infinity` or `nan` (in any case) is converted; what follows it is ignored.
When no initial part has that form nothing is converted and the result is
positive zero. -/
def strtod (s : String) : Double :=
  let signed := split_sign (s.data.dropWhile is_space)
  match hexadecimal_value signed.2 with
  | some q => Double.finite signed.1 q
  | none =>
    match decimal_value signed.2 with
    | some q => Double.finite signed.1 q
    | none =>
      let word := (signed.2.take 3).map Char.toLower
      if word = ['i', 'n', 'f'] then Double.infinite signed.1
      else if word = ['n', 'a', 'n'] then Double.nan
      else Double.finite false 0

/-- A platform for evaluating the definitions on concrete inputs: `strtod` is the
model above, the zeroed double is positive zero, the flag constants are those of
`hardware/gps.h`, and the size is that of the record on a 32-bit ABI. -/
def libcPlatform : Platform Double :=
  { strtod := strtod
    zero := Double.finite false 0
    GPS_LOCATION_HAS_LAT_LONG := 0x0001
    GPS_LOCATION_HAS_ACCURACY := 0x0010
    sizeof_GpsLocation := 56 }

/-- The context after `open_gps` and `init` with callback table 7, for
evaluation. -/
def initialized_ctx : prop_gps_context Double :=
  (prop_gps_init libcPlatform (some 7) (zero_ctx libcPlatform)).ctx

/-- Outside values for evaluation: the latitude property is `"12abc"`, the
longitude property is `"nan"`, and `stopped` is read true in every cycle. -/
def malformed_input (k : Nat) : CycleInput :=
  { store_lat := [("gps.latitude", "12abc")]
    store_lon := [("gps.longitude", "nan")]
    now := 1000 + 50 * k
    stopped := true }

/-- Outside values for evaluation: the latitude property is `"37"` in cycle 0 and
not numeric afterwards, the longitude property is absent, and `stopped` is read
true from cycle `stop_at` on. -/
def sample_input (stop_at : Nat) (k : Nat) : CycleInput :=
  { store_lat := if k = 0 then [("gps.latitude", "37")] else [("gps.latitude", "north")]
    store_lon := [("gps.altitude", "12")]
    now := 1000 + 50 * k
    stopped := decide (stop_at ≤ k) }

/-- The accesses to `stopped` in a log that are not made between a `lock` and
the matching `unlock` of the same thread; `held` lists the threads that are
between the two at the start of the log. -/
def unguarded {D : Type} : List Actor → List (Event D) → List (Event D)
  | _, [] => []
  | held, Event.lock a :: es => unguarded (a :: held) es
  | held, Event.unlock a :: es => unguarded (held.filter (fun b => b ≠ a)) es
  | held, Event.read_stopped a v :: es =>
    if a ∈ held then unguarded held es else Event.read_stopped a v :: unguarded held es
  | held, Event.write_stopped a v :: es =>
    if a ∈ held then unguarded held es else Event.write_stopped a v :: unguarded held es
  | held, _ :: es => unguarded held es

/-- Invariant of the interleaving: at most one worker is not yet joined, it is
the one whose handle the context records, none is left while the caller is
between calls with `stopped` set, and `stopped` is set while the caller is past
the write of `prop_gps_stop`. -/
structure Inv {D : Type} (s : System D) : Prop where
  one : s.workers.length ≤ 1
  mine : ∀ w ∈ s.workers, w.handle = s.ctx.thread
  idle_stopped : s.caller = CallerPc.idle → s.ctx.stopped = true → s.workers = []
  joining :
    s.caller = CallerPc.stop_unlock ∨ s.caller = CallerPc.stop_join → s.ctx.stopped = true

/-- Invariant of the interleaving when `init` is never given `NULL`: only on an
initialized context is `stopped` set, is the caller inside `prop_gps_stop`, or
does a worker exist; and an initialized context has its callback table bound. -/
structure Bound {D : Type} (s : System D) : Prop where
  stopped_init : s.ctx.stopped = true → s.ctx.initialized = true
  init_cb : s.ctx.initialized = true → s.ctx.cb ≠ none
  busy_init : s.caller ≠ CallerPc.idle → s.ctx.initialized = true
  worker_init : s.workers ≠ [] → s.ctx.initialized = true

/-- A schedule for evaluation: `init`, a first `stop` (which sets `stopped`),
`start`, one full cycle of the worker and the loop test of the next, then `stop`
up to its join while the worker runs its second cycle and returns. -/
def lifecycle_schedule : List Label :=
  [Label.init (some 7)] ++ stop_call ++ [Label.start] ++
    List.replicate 10 (Label.worker 1) ++
    [Label.stop, Label.caller, Label.caller, Label.caller] ++
    List.replicate 8 (Label.worker 1)

/-- A continuation for evaluation that contains no `start`. -/
def quiet_schedule : List Label :=
  [Label.init (some 9), Label.clock 6] ++ stop_call ++
    [Label.cleanup, Label.property_set "gps.latitude" "38"]

/-- Invariant of the interleaving about the mutex: when the caller holds it the
caller is between the lock and the unlock of `prop_gps_stop`, and when a worker
holds it that worker is between the lock and the unlock of its loop. -/
structure MutexInv {D : Type} (s : System D) : Prop where
  caller_owns :
    s.ctx.mutex = Mutex.locked Actor.caller →
      s.caller = CallerPc.stop_write ∨ s.caller = CallerPc.stop_unlock
  worker_owns :
    ∀ h, s.ctx.mutex = Mutex.locked (Actor.worker h) →
      ∃ w ∈ s.workers, w.handle = h ∧ (w.pc = WorkerPc.read ∨ w.pc = WorkerPc.unlock)

/-! ## Theorems -/

/-- A property that every allowed step keeps is kept by every schedule of allowed
steps. -/
theorem run_induction {D : Type} (P : Platform D) (I : System D → Prop)
    (allowed : Label → Prop)
    (hstep : ∀ s l s', allowed l → I s → step P s l = some s' → I s') :
    ∀ (ls : List Label) (s s' : System D),
      (∀ l ∈ ls, allowed l) → I s → run P s ls = some s' → I s' := by
  intro ls
  induction ls with
  | nil =>
    intro s s' _ hI h
    simp only [run, Option.some.injEq] at h
    exact h ▸ hI
  | cons l ls ih =>
    intro s s' hall hI h
    simp only [run] at h
    cases hs : step P s l with
    | none => simp [hs] at h
    | some s1 =>
      simp only [hs] at h
      exact ih s1 s' (fun x hx => hall x (List.mem_cons_of_mem _ hx))
        (hstep s l s1 (hall l (List.mem_cons_self _ _)) hI hs) h

/-- A statement of a worker leaves `stopped`, `thread`, `initialized` and `cb`
alone, and the worker keeps its handle. -/
theorem worker_step_frame {D : Type} (P : Platform D) (store : Store) (now : Int)
    (ctx : prop_gps_context D) (w : Worker)
    (r : prop_gps_context D × Worker × List (Event D))
    (h : worker_step P store now ctx w = some r) :
    r.1.stopped = ctx.stopped ∧ r.1.thread = ctx.thread ∧
    r.1.initialized = ctx.initialized ∧ r.1.cb = ctx.cb ∧ r.2.1.handle = w.handle := by
  unfold worker_step at h
  cases hpc : w.pc <;> simp only [hpc] at h
  case emit =>
    split at h
    · simp at h
    · simp only [Option.some.injEq] at h
      subst h
      simp
  case lock =>
    split at h
    · simp at h
    · simp only [Option.some.injEq] at h
      subst h
      simp
  case done => simp at h
  all_goals
    simp only [Option.some.injEq] at h
    subst h
    simp [thread_entry]

/-- The freshly opened state satisfies `Inv`. -/
theorem Inv_open_gps {D : Type} (P : Platform D) (store : Store) (now : Int) :
    Inv (open_gps P store now) := by
  constructor <;> simp [open_gps, zero_ctx]

/-- Replacing the worker with handle `h` by one with the same handle. -/
theorem map_replace_handle (ws : List Worker) (h : Nat) (w' : Worker)
    (hw : w'.handle = h) :
    (ws.map (fun x => if x.handle = h then w' else x)).map Worker.handle =
      ws.map Worker.handle := by
  induction ws with
  | nil => rfl
  | cons a t ih =>
    simp only [List.map_cons, ih, List.cons.injEq, and_true]
    split
    · rename_i ha
      rw [hw, ha]
    · rfl

/-- What a worker step leaves in place: everything but the location, the mutex,
the worker's own locals and the log. -/
theorem step_worker_frame {D : Type} (P : Platform D) (s s' : System D) (h : Nat)
    (hs : step P s (Label.worker h) = some s') :
    s'.ctx.stopped = s.ctx.stopped ∧ s'.ctx.thread = s.ctx.thread ∧
    s'.ctx.initialized = s.ctx.initialized ∧ s'.ctx.cb = s.ctx.cb ∧
    s'.caller = s.caller ∧ s'.created = s.created ∧
    s'.workers.map Worker.handle = s.workers.map Worker.handle := by
  simp only [step] at hs
  split at hs
  · simp at hs
  · rename_i w hfind
    split at hs
    · simp at hs
    · rename_i r hr
      simp only [Option.some.injEq] at hs
      subst hs
      have hf := worker_step_frame P s.store s.now s.ctx w r hr
      have hh : w.handle = h := by
        have := List.find?_some hfind
        simpa using this
      refine ⟨hf.1, hf.2.1, hf.2.2.1, hf.2.2.2.1, rfl, rfl, ?_⟩
      exact map_replace_handle s.workers h r.2.1 (hf.2.2.2.2.trans hh)

/-- Facts about a list of workers that depend on the handles only. -/
theorem handles_eq {ws ws' : List Worker}
    (h : ws'.map Worker.handle = ws.map Worker.handle) :
    ws'.length = ws.length ∧ (∀ t, (∀ w ∈ ws, w.handle = t) → ∀ w ∈ ws', w.handle = t) ∧
    (ws = [] → ws' = []) := by
  refine ⟨?_, ?_, ?_⟩
  · have := congrArg List.length h
    simpa using this
  · intro t ht w hw
    have hm : w.handle ∈ ws'.map Worker.handle := List.mem_map_of_mem _ hw
    rw [h] at hm
    obtain ⟨x, hx, hxe⟩ := List.mem_map.mp hm
    rw [← hxe]
    exact ht x hx
  · intro he
    subst he
    simpa using h

/-- Every step keeps `Inv`. -/
theorem Inv_step {D : Type} (P : Platform D) (s : System D) (l : Label) (s' : System D)
    (hI : Inv s) (hs : step P s l = some s') : Inv s' := by
  cases l with
  | worker h =>
    obtain ⟨h1, h2, _, _, h5, _, h7⟩ := step_worker_frame P s s' h hs
    obtain ⟨hl, hm, he⟩ := handles_eq h7
    refine ⟨hl ▸ hI.one, ?_, ?_, ?_⟩
    · rw [h2]
      exact hm _ hI.mine
    · intro hc hst
      rw [h5] at hc
      rw [h1] at hst
      exact he (hI.idle_stopped hc hst)
    · intro hc
      rw [h5] at hc
      rw [h1]
      exact hI.joining hc
  | caller =>
    simp only [step] at hs
    split at hs
    · simp at hs
    rename_i hbusy
    simp only [prop_gps_stop] at hs
    split at hs
    · rename_i hidle
      exact absurd hidle hbusy
    · rename_i hc
      split at hs
      · simp at hs
      · simp only [Option.some.injEq] at hs
        subst hs
        exact ⟨hI.one, hI.mine, by simp, by simp⟩
    · simp only [Option.some.injEq] at hs
      subst hs
      exact ⟨hI.one, hI.mine, by simp, by simp⟩
    · rename_i hc
      simp only [Option.some.injEq] at hs
      subst hs
      exact ⟨hI.one, hI.mine, by simp, fun _ => hI.joining (Or.inl hc)⟩
    · rename_i hc
      split at hs
      · rename_i hfind
        simp only [Option.some.injEq] at hs
        subst hs
        have hnil : s.workers = [] := by
          cases hw : s.workers with
          | nil => rfl
          | cons a t =>
            have ha : a.handle = s.ctx.thread := hI.mine a (by simp [hw])
            simp [hw, ha] at hfind
        exact ⟨hI.one, hI.mine, fun _ _ => hnil, by simp⟩
      · split at hs
        · simp only [Option.some.injEq] at hs
          subst hs
          have hnil : s.workers.filter (fun x => x.handle ≠ s.ctx.thread) = [] := by
            rw [List.filter_eq_nil_iff]
            intro a ha
            simp [hI.mine a ha]
          refine ⟨?_, ?_, fun _ _ => hnil, by simp⟩
          · show (s.workers.filter (fun x => x.handle ≠ s.ctx.thread)).length ≤ 1
            rw [hnil]
            simp
          · show ∀ w ∈ s.workers.filter (fun x => x.handle ≠ s.ctx.thread), _
            rw [hnil]
            simp
        · simp at hs
  | property_set key value =>
    simp only [step, Option.some.injEq] at hs
    subst hs
    exact ⟨hI.one, hI.mine, hI.idle_stopped, hI.joining⟩
  | clock now =>
    simp only [step, Option.some.injEq] at hs
    subst hs
    exact ⟨hI.one, hI.mine, hI.idle_stopped, hI.joining⟩
  | start =>
    simp only [step] at hs
    split at hs
    · rename_i hc
      simp only [call, prop_gps_start] at hs
      by_cases hst : s.ctx.stopped = true
      · have hnil := hI.idle_stopped hc hst
        simp only [hst, if_true] at hs
        cases hcb : s.ctx.cb with
        | none => simp [hcb] at hs
        | some sink =>
          simp only [hcb, Option.some.injEq] at hs
          subst hs
          refine ⟨?_, ?_, ?_, ?_⟩ <;> simp [hnil, spawned, Worker.spawn, hc]
      · simp only [hst] at hs
        simp only [Bool.false_eq_true, if_false, Option.some.injEq] at hs
        subst hs
        refine ⟨?_, ?_, ?_, ?_⟩ <;> simp [spawned, hc, hst]
        · exact hI.one
        · exact hI.mine
    · simp at hs
  | init callbacks =>
    simp only [step] at hs
    split at hs
    · rename_i hc
      simp only [call, Option.some.injEq] at hs
      subst hs
      have hk : (prop_gps_init P callbacks s.ctx).ctx.stopped = s.ctx.stopped ∧
          (prop_gps_init P callbacks s.ctx).ctx.thread = s.ctx.thread := by
        unfold prop_gps_init
        split <;> simp
      refine ⟨hI.one, ?_, ?_, ?_⟩
      · simpa [hk.2] using hI.mine
      · simpa [hk.1] using hI.idle_stopped
      · simp [hc]
    · simp at hs
  | stop =>
    simp only [step] at hs
    split at hs
    · rename_i hc
      simp only [call, prop_gps_stop, hc] at hs
      split at hs
      · simp only [Option.some.injEq] at hs
        subst hs
        exact ⟨hI.one, hI.mine, by simp, by simp⟩
      · simp only [Option.some.injEq] at hs
        subst hs
        exact ⟨hI.one, hI.mine, fun _ => hI.idle_stopped hc, by simp⟩
    · simp at hs
  | cleanup =>
    simp only [step] at hs
    split at hs
    · simp only [call, prop_gps_cleanup, Option.some.injEq] at hs
      subst hs
      exact ⟨hI.one, hI.mine, hI.idle_stopped, hI.joining⟩
    · simp at hs
  | inject_time =>
    simp only [step] at hs
    split at hs
    · simp only [call, prop_gps_inject_time, Option.some.injEq] at hs
      subst hs
      exact ⟨hI.one, hI.mine, hI.idle_stopped, hI.joining⟩
    · simp at hs
  | inject_location =>
    simp only [step] at hs
    split at hs
    · simp only [call, prop_gps_inject_location, Option.some.injEq] at hs
      subst hs
      exact ⟨hI.one, hI.mine, hI.idle_stopped, hI.joining⟩
    · simp at hs
  | delete_aiding_data =>
    simp only [step] at hs
    split at hs
    · simp only [call, prop_gps_delete_aiding_data, Option.some.injEq] at hs
      subst hs
      exact ⟨hI.one, hI.mine, hI.idle_stopped, hI.joining⟩
    · simp at hs
  | set_position_mode =>
    simp only [step] at hs
    split at hs
    · simp only [call, prop_gps_set_position_mode, Option.some.injEq] at hs
      subst hs
      exact ⟨hI.one, hI.mine, hI.idle_stopped, hI.joining⟩
    · simp at hs
  | get_extension name =>
    simp only [step] at hs
    split at hs
    · simp only [call, Option.some.injEq] at hs
      subst hs
      exact ⟨hI.one, hI.mine, hI.idle_stopped, hI.joining⟩
    · simp at hs

/-- Every state reachable from the freshly opened one satisfies `Inv`. -/
theorem Inv_run {D : Type} (P : Platform D) (store : Store) (now : Int)
    (ls : List Label) (s : System D) (h : run P (open_gps P store now) ls = some s) :
    Inv s :=
  run_induction P Inv (fun _ => True) (fun s l s' _ hI hs => Inv_step P s l s' hI hs)
    ls _ s (fun _ _ => trivial) (Inv_open_gps P store now) h

/-- `prop_gps_start` returns to a caller that is between calls, with `stopped`
cleared. -/
theorem start_clears_stopped {D : Type} (P : Platform D) (s s' : System D)
    (hs : step P s Label.start = some s') :
    s'.caller = CallerPc.idle ∧ s'.ctx.stopped = false := by
  simp only [step] at hs
  split at hs
  · rename_i hc
    simp only [call, prop_gps_start] at hs
    by_cases hst : s.ctx.stopped = true
    · simp only [hst, if_true] at hs
      cases hcb : s.ctx.cb with
      | none => simp [hcb] at hs
      | some sink =>
        simp only [hcb, Option.some.injEq] at hs
        subst hs
        exact ⟨hc, rfl⟩
    · simp only [hst, Bool.false_eq_true, if_false, Option.some.injEq] at hs
      subst hs
      exact ⟨hc, by simpa using hst⟩
  · simp at hs

/-- While the caller is between calls and `stopped` is clear, no step other than
a call of `prop_gps_stop` changes either. -/
theorem running_step {D : Type} (P : Platform D) (s : System D) (l : Label)
    (s' : System D) (hl : l ≠ Label.stop)
    (hI : s.caller = CallerPc.idle ∧ s.ctx.stopped = false)
    (hs : step P s l = some s') :
    s'.caller = CallerPc.idle ∧ s'.ctx.stopped = false := by
  obtain ⟨hc, hst⟩ := hI
  cases l with
  | worker h =>
    obtain ⟨h1, _, _, _, h5, _, _⟩ := step_worker_frame P s s' h hs
    exact ⟨h5.trans hc, h1.trans hst⟩
  | caller => simp [step, hc] at hs
  | stop => exact absurd rfl hl
  | start => exact start_clears_stopped P s s' hs
  | init callbacks =>
    simp only [step, hc, if_true, call, Option.some.injEq] at hs
    subst hs
    refine ⟨rfl, ?_⟩
    show (prop_gps_init P callbacks s.ctx).ctx.stopped = false
    unfold prop_gps_init
    split <;> simpa using hst
  | property_set key value =>
    simp only [step, Option.some.injEq] at hs
    subst hs
    exact ⟨hc, hst⟩
  | clock now =>
    simp only [step, Option.some.injEq] at hs
    subst hs
    exact ⟨hc, hst⟩
  | cleanup =>
    simp only [step, hc, if_true, call, prop_gps_cleanup, Option.some.injEq] at hs
    subst hs
    exact ⟨rfl, hst⟩
  | inject_time =>
    simp only [step, hc, if_true, call, prop_gps_inject_time, Option.some.injEq] at hs
    subst hs
    exact ⟨rfl, hst⟩
  | inject_location =>
    simp only [step, hc, if_true, call, prop_gps_inject_location, Option.some.injEq] at hs
    subst hs
    exact ⟨rfl, hst⟩
  | delete_aiding_data =>
    simp only [step, hc, if_true, call, prop_gps_delete_aiding_data, Option.some.injEq] at hs
    subst hs
    exact ⟨rfl, hst⟩
  | set_position_mode =>
    simp only [step, hc, if_true, call, prop_gps_set_position_mode, Option.some.injEq] at hs
    subst hs
    exact ⟨rfl, hst⟩
  | get_extension name =>
    simp only [step, hc, if_true, call, Option.some.injEq] at hs
    subst hs
    exact ⟨rfl, hst⟩

/-- `prop_gps_start` on a context whose `stopped` is clear changes nothing but
the log. -/
theorem start_when_running {D : Type} (P : Platform D) (s s' : System D)
    (hst : s.ctx.stopped = false) (hs : step P s Label.start = some s') :
    s'.ctx = s.ctx ∧ s'.workers = s.workers ∧ s'.created = s.created ∧
    s'.trace = s.trace ++
      [Event.read_stopped Actor.caller false, Event.returned Api.start (some EXIT_SUCCESS)] := by
  simp only [step] at hs
  split at hs
  · simp only [call, prop_gps_start, hst, Bool.false_eq_true, if_false,
      Option.some.injEq] at hs
    subst hs
    simp [spawned]
  · simp at hs

/-- The fixes of a concatenated log. -/
theorem emissions_append {D : Type} (a b : List (Event D)) :
    emissions (a ++ b) = emissions a ++ emissions b := by
  induction a with
  | nil => rfl
  | cons e t ih => cases e <;> simp [emissions, ih]

/-- The actions of `prop_gps_init` contain no callback. -/
theorem emissions_init {D : Type} (P : Platform D) (cb : Option Nat)
    (ctx : prop_gps_context D) : emissions (prop_gps_init P cb ctx).events = [] := by
  unfold prop_gps_init
  split <;> rfl

/-- While no worker exists, no step other than a call of `prop_gps_start` creates
one or invokes `location_cb`. -/
theorem quiet_step {D : Type} (P : Platform D) (s : System D) (l : Label)
    (s' : System D) (hl : l ≠ Label.start)
    (hI : s.workers = []) (hs : step P s l = some s') :
    s'.workers = [] ∧ emissions s'.trace = emissions s.trace := by
  cases l with
  | worker h => simp [step, hI] at hs
  | start => exact absurd rfl hl
  | caller =>
    simp only [step] at hs
    split at hs
    · simp at hs
    rename_i hbusy
    simp only [prop_gps_stop] at hs
    split at hs
    · rename_i hidle
      exact absurd hidle hbusy
    · split at hs
      · simp at hs
      · simp only [Option.some.injEq] at hs
        subst hs
        simp [hI, emissions_append, emissions]
    · simp only [Option.some.injEq] at hs
      subst hs
      simp [hI, emissions_append, emissions]
    · simp only [Option.some.injEq] at hs
      subst hs
      simp [hI, emissions_append, emissions]
    · simp only [hI, List.find?_nil, Option.some.injEq] at hs
      subst hs
      simp [hI, emissions_append, emissions]
  | init callbacks =>
    simp only [step] at hs
    split at hs
    · simp only [call, Option.some.injEq] at hs
      subst hs
      simp [hI, emissions_append, emissions, emissions_init]
    · simp at hs
  | stop =>
    simp only [step] at hs
    split at hs
    · rename_i hc
      simp only [call, prop_gps_stop, hc] at hs
      split at hs <;>
      · simp only [Option.some.injEq] at hs
        subst hs
        simp [hI, emissions_append, emissions]
    · simp at hs
  | property_set key value =>
    simp only [step, Option.some.injEq] at hs
    subst hs
    exact ⟨hI, rfl⟩
  | clock now =>
    simp only [step, Option.some.injEq] at hs
    subst hs
    exact ⟨hI, rfl⟩
  | cleanup =>
    simp only [step] at hs
    split at hs
    · simp only [call, prop_gps_cleanup, Option.some.injEq] at hs
      subst hs
      simp [hI, emissions_append, emissions]
    · simp at hs
  | inject_time =>
    simp only [step] at hs
    split at hs
    · simp only [call, prop_gps_inject_time, Option.some.injEq] at hs
      subst hs
      simp [hI, emissions_append, emissions]
    · simp at hs
  | inject_location =>
    simp only [step] at hs
    split at hs
    · simp only [call, prop_gps_inject_location, Option.some.injEq] at hs
      subst hs
      simp [hI, emissions_append, emissions]
    · simp at hs
  | delete_aiding_data =>
    simp only [step] at hs
    split at hs
    · simp only [call, prop_gps_delete_aiding_data, Option.some.injEq] at hs
      subst hs
      simp [hI, emissions_append, emissions]
    · simp at hs
  | set_position_mode =>
    simp only [step] at hs
    split at hs
    · simp only [call, prop_gps_set_position_mode, Option.some.injEq] at hs
      subst hs
      simp [hI, emissions_append, emissions]
    · simp at hs
  | get_extension name =>
    simp only [step] at hs
    split at hs
    · simp only [call, Option.some.injEq] at hs
      subst hs
      simp [hI, emissions_append, emissions]
    · simp at hs

/-- The step that completes the `pthread_join` of `prop_gps_stop`: every worker
there was has returned, and none is left afterwards. -/
theorem join_step {D : Type} (P : Platform D) (s s' : System D) (hI : Inv s)
    (hc : s.caller = CallerPc.stop_join) (hs : step P s Label.caller = some s') :
    (∀ w ∈ s.workers, w.pc = WorkerPc.done) ∧ s'.workers = [] ∧
    s'.ctx.stopped = true ∧ s'.caller = CallerPc.idle ∧
    emissions s'.trace = emissions s.trace := by
  have hst := hI.joining (Or.inr hc)
  simp only [step, prop_gps_stop, hc, reduceCtorEq, if_false] at hs
  split at hs
  · rename_i hfind
    simp only [Option.some.injEq] at hs
    subst hs
    have hnil : s.workers = [] := by
      cases hw : s.workers with
      | nil => rfl
      | cons a t =>
        have ha : a.handle = s.ctx.thread := hI.mine a (by simp [hw])
        simp [hw, ha] at hfind
    simp [hnil, hst, emissions_append, emissions]
  · rename_i w hfind
    split at hs
    · rename_i hdone
      simp only [Option.some.injEq] at hs
      subst hs
      have hnil : s.workers.filter (fun x => x.handle ≠ s.ctx.thread) = [] := by
        rw [List.filter_eq_nil_iff]
        intro a ha
        simp [hI.mine a ha]
      refine ⟨?_, hnil, hst, rfl, by simp [emissions_append, emissions]⟩
      intro a ha
      have hone := hI.one
      cases hw : s.workers with
      | nil => simp [hw] at ha
      | cons b t =>
        cases t with
        | cons c u =>
          rw [hw] at hone
          simp at hone
        | nil =>
          have hb : b.handle = s.ctx.thread := hI.mine b (by simp [hw])
          simp [hw, hb] at hfind
          simp [hw] at ha
          rw [ha, hfind]
          exact hdone
    · simp at hs

/-- The freshly opened state satisfies `Bound`. -/
theorem Bound_open_gps {D : Type} (P : Platform D) (store : Store) (now : Int) :
    Bound (open_gps P store now) := by
  constructor <;> simp [open_gps, zero_ctx]

/-- Every step other than `init(NULL)` keeps `Bound`. -/
theorem Bound_step {D : Type} (P : Platform D) (s : System D) (l : Label) (s' : System D)
    (hl : l ≠ Label.init none) (hI : Bound s) (hs : step P s l = some s') : Bound s' := by
  cases l with
  | worker h =>
    obtain ⟨h1, _, h3, h4, h5, _, h7⟩ := step_worker_frame P s s' h hs
    obtain ⟨_, _, he⟩ := handles_eq h7
    refine ⟨?_, ?_, ?_, ?_⟩
    · rw [h1, h3]
      exact hI.stopped_init
    · rw [h3, h4]
      exact hI.init_cb
    · rw [h5, h3]
      exact hI.busy_init
    · intro hne
      rw [h3]
      exact hI.worker_init (fun hnil => hne (he hnil))
  | caller =>
    simp only [step] at hs
    split at hs
    · simp at hs
    rename_i hbusy
    simp only [prop_gps_stop] at hs
    split at hs
    · rename_i hidle
      exact absurd hidle hbusy
    · rename_i hc
      have hin := hI.busy_init (by simp [hc])
      split at hs
      · simp at hs
      · simp only [Option.some.injEq] at hs
        subst hs
        exact ⟨hI.stopped_init, hI.init_cb, fun _ => hin, hI.worker_init⟩
    · rename_i hc
      have hin := hI.busy_init (by simp [hc])
      simp only [Option.some.injEq] at hs
      subst hs
      exact ⟨fun _ => hin, hI.init_cb, fun _ => hin, hI.worker_init⟩
    · rename_i hc
      have hin := hI.busy_init (by simp [hc])
      simp only [Option.some.injEq] at hs
      subst hs
      exact ⟨hI.stopped_init, hI.init_cb, fun _ => hin, hI.worker_init⟩
    · rename_i hc
      have hin := hI.busy_init (by simp [hc])
      split at hs
      · simp only [Option.some.injEq] at hs
        subst hs
        exact ⟨hI.stopped_init, hI.init_cb, fun _ => hin, hI.worker_init⟩
      · split at hs
        · simp only [Option.some.injEq] at hs
          subst hs
          exact ⟨hI.stopped_init, hI.init_cb, fun _ => hin, fun _ => hin⟩
        · simp at hs
  | property_set key value =>
    simp only [step, Option.some.injEq] at hs
    subst hs
    exact ⟨hI.stopped_init, hI.init_cb, hI.busy_init, hI.worker_init⟩
  | clock now =>
    simp only [step, Option.some.injEq] at hs
    subst hs
    exact ⟨hI.stopped_init, hI.init_cb, hI.busy_init, hI.worker_init⟩
  | start =>
    simp only [step] at hs
    split at hs
    · rename_i hc
      simp only [call, prop_gps_start] at hs
      by_cases hst : s.ctx.stopped = true
      · have hin := hI.stopped_init hst
        simp only [hst, if_true] at hs
        cases hcb : s.ctx.cb with
        | none => simp [hcb] at hs
        | some sink =>
          simp only [hcb, Option.some.injEq] at hs
          subst hs
          refine ⟨fun _ => hin, fun _ => ?_, fun _ => hin, fun _ => hin⟩
          simp [hcb]
      · simp only [hst, Bool.false_eq_true, if_false, Option.some.injEq] at hs
        subst hs
        refine ⟨hI.stopped_init, hI.init_cb, hI.busy_init, ?_⟩
        simpa [spawned] using hI.worker_init
    · simp at hs
  | init callbacks =>
    cases callbacks with
    | none => exact absurd rfl hl
    | some k =>
      simp only [step] at hs
      split at hs
      · rename_i hc
        simp only [call, Option.some.injEq] at hs
        subst hs
        by_cases hin : s.ctx.initialized = true
        · have hk : (prop_gps_init P (some k) s.ctx).ctx = s.ctx := by
            simp [prop_gps_init, hin]
          refine ⟨?_, ?_, ?_, ?_⟩
          · simpa [hk] using hI.stopped_init
          · simpa [hk] using hI.init_cb
          · simp [hc]
          · simpa [hk] using hI.worker_init
        · have hk : (prop_gps_init P (some k) s.ctx).ctx.initialized = true ∧
              (prop_gps_init P (some k) s.ctx).ctx.cb = some k := by
            simp [prop_gps_init, hin]
          refine ⟨fun _ => hk.1, fun _ => ?_, fun _ => hk.1, fun _ => hk.1⟩
          simp [hk.2]
      · simp at hs
  | stop =>
    simp only [step] at hs
    split at hs
    · rename_i hc
      simp only [call, prop_gps_stop, hc] at hs
      split at hs
      · rename_i hin
        simp only [Option.some.injEq] at hs
        subst hs
        exact ⟨hI.stopped_init, hI.init_cb, fun _ => hin, hI.worker_init⟩
      · simp only [Option.some.injEq] at hs
        subst hs
        exact ⟨hI.stopped_init, hI.init_cb, fun h => absurd rfl h, hI.worker_init⟩
    · simp at hs
  | cleanup =>
    simp only [step] at hs
    split at hs
    · simp only [call, prop_gps_cleanup, Option.some.injEq] at hs
      subst hs
      exact ⟨hI.stopped_init, hI.init_cb, hI.busy_init, hI.worker_init⟩
    · simp at hs
  | inject_time =>
    simp only [step] at hs
    split at hs
    · simp only [call, prop_gps_inject_time, Option.some.injEq] at hs
      subst hs
      exact ⟨hI.stopped_init, hI.init_cb, hI.busy_init, hI.worker_init⟩
    · simp at hs
  | inject_location =>
    simp only [step] at hs
    split at hs
    · simp only [call, prop_gps_inject_location, Option.some.injEq] at hs
      subst hs
      exact ⟨hI.stopped_init, hI.init_cb, hI.busy_init, hI.worker_init⟩
    · simp at hs
  | delete_aiding_data =>
    simp only [step] at hs
    split at hs
    · simp only [call, prop_gps_delete_aiding_data, Option.some.injEq] at hs
      subst hs
      exact ⟨hI.stopped_init, hI.init_cb, hI.busy_init, hI.worker_init⟩
    · simp at hs
  | set_position_mode =>
    simp only [step] at hs
    split at hs
    · simp only [call, prop_gps_set_position_mode, Option.some.injEq] at hs
      subst hs
      exact ⟨hI.stopped_init, hI.init_cb, hI.busy_init, hI.worker_init⟩
    · simp at hs
  | get_extension name =>
    simp only [step] at hs
    split at hs
    · simp only [call, Option.some.injEq] at hs
      subst hs
      exact ⟨hI.stopped_init, hI.init_cb, hI.busy_init, hI.worker_init⟩
    · simp at hs

/-- `prop_gps_start` does not crash when `stopped` implies a bound callback
table. -/
theorem start_defined {D : Type} (P : Platform D) (s : System D)
    (hc : s.caller = CallerPc.idle) (hcb : s.ctx.stopped = true → s.ctx.cb ≠ none) :
    (step P s Label.start).isSome = true := by
  simp only [step, hc, if_true, call, prop_gps_start]
  by_cases hst : s.ctx.stopped = true
  · simp only [hst, if_true]
    cases h : s.ctx.cb with
    | none => exact absurd h (hcb hst)
    | some sink => rfl
  · simp [hst]

/-- With the default `"0"`, what `readScalar` returns is never empty. -/
theorem readScalar_length (store : Store) (key : String) :
    (readScalar store key "0").length ≠ 0 := by
  unfold readScalar
  split
  · split
    · decide
    · assumption
  · decide

/-- Lines 70-72 always assign the latitude. -/
theorem poll_latitude_eq {D : Type} (P : Platform D) (store : Store) (loc : GpsLocation D) :
    poll_latitude P store loc =
      ({ loc with latitude := P.strtod (readScalar store GPS_LAT_PROP "0") },
        readScalar store GPS_LAT_PROP "0") := by
  simp [poll_latitude, property_get, readScalar_length]

/-- Lines 74-76 always assign the longitude. -/
theorem poll_longitude_eq {D : Type} (P : Platform D) (store : Store) (loc : GpsLocation D) :
    poll_longitude P store loc =
      ({ loc with longitude := P.strtod (readScalar store GPS_LONG_PROP "0") },
        readScalar store GPS_LONG_PROP "0") := by
  simp [poll_longitude, property_get, readScalar_length]

/-- The fix of cycle `k + j` of the loop, when the flags are those set at entry. -/
theorem thread_loop_fix {D : Type} (P : Platform D) (handle : Nat) (cb : Option Nat)
    (input : Nat → CycleInput) :
    ∀ (fuel k : Nat) (active : Bool) (loc : GpsLocation D) (j : Nat) (fix : GpsLocation D),
      loc.flags = P.GPS_LOCATION_HAS_LAT_LONG ||| P.GPS_LOCATION_HAS_ACCURACY →
      (emissions (thread_loop P handle cb input fuel k active loc).events)[j]? = some fix →
      fix.latitude = P.strtod (readScalar (input (k + j)).store_lat GPS_LAT_PROP "0") ∧
      fix.longitude = P.strtod (readScalar (input (k + j)).store_lon GPS_LONG_PROP "0") ∧
      fix.accuracy = 1 ∧
      fix.flags = P.GPS_LOCATION_HAS_LAT_LONG ||| P.GPS_LOCATION_HAS_ACCURACY ∧
      fix.timestamp = (input (k + j)).now := by
  intro fuel
  induction fuel with
  | zero =>
    intro k active loc j fix _ h
    simp [thread_loop, emissions] at h
  | succ fuel ih =>
    intro k active loc j fix hfl h
    cases active with
    | false => simp [thread_loop, emissions] at h
    | true =>
      cases cb with
      | none => simp [thread_loop, emissions] at h
      | some sink =>
        simp only [thread_loop, if_true, poll_latitude_eq, poll_longitude_eq,
          List.cons_append, List.nil_append, emissions] at h
        cases j with
        | zero =>
          simp only [List.getElem?_cons_zero, Option.some.injEq] at h
          subst h
          simp [stamp, hfl]
        | succ j =>
          simp only [List.getElem?_cons_succ] at h
          have := ih (k + 1) _ _ j fix (by simpa [stamp] using hfl) h
          rw [show k + (j + 1) = k + 1 + j by omega]
          exact this

/-- The loop entered with `active` set, when `stopped` is read false in the next
`n` cycles and true in the one after: with enough fuel the function returns
after `n + 1` fixes and `n + 1` waits, the last actions being the read of
`stopped`, the unlock and the wait. -/
theorem thread_loop_run {D : Type} (P : Platform D) (handle sink : Nat)
    (input : Nat → CycleInput) :
    ∀ (n fuel k : Nat) (loc : GpsLocation D),
      n + 2 ≤ fuel → (∀ j < n, (input (k + j)).stopped = false) →
      (input (k + n)).stopped = true →
      (thread_loop P handle (some sink) input fuel k true loc).status = Status.returned ∧
      (emissions (thread_loop P handle (some sink) input fuel k true loc).events).length
        = n + 1 ∧
      waits (thread_loop P handle (some sink) input fuel k true loc).events
        = List.replicate (n + 1) POLL_USEC ∧
      ∃ pre, (thread_loop P handle (some sink) input fuel k true loc).events =
        pre ++ [Event.read_stopped (Actor.worker handle) true,
          Event.unlock (Actor.worker handle), Event.select POLL_USEC] := by
  intro n
  induction n with
  | zero =>
    intro fuel k loc hf _ hstop
    obtain ⟨f, rfl⟩ : ∃ f, fuel = f + 2 := ⟨fuel - 2, by omega⟩
    simp only [Nat.add_zero] at hstop
    refine ⟨?_, ?_, ?_, ?_⟩
    · simp [thread_loop, hstop]
    · simp [thread_loop, hstop, emissions]
    · simp [thread_loop, hstop, waits]
    · exact ⟨[Event.property_get GPS_LAT_PROP (poll_latitude P (input k).store_lat loc).2,
          Event.property_get GPS_LONG_PROP
            (poll_longitude P (input k).store_lon
              (poll_latitude P (input k).store_lat loc).1).2,
          Event.location_cb sink
            (stamp (input k).now
              (poll_longitude P (input k).store_lon
                (poll_latitude P (input k).store_lat loc).1).1),
          Event.lock (Actor.worker handle)], by simp [thread_loop, hstop]⟩
  | succ n ih =>
    intro fuel k loc hf hrun hstop
    obtain ⟨f, rfl⟩ : ∃ f, fuel = f + 1 := ⟨fuel - 1, by omega⟩
    have h0 : (input k).stopped = false := by simpa using hrun 0 (by omega)
    have hrec := ih f (k + 1)
      (stamp (input k).now
        (poll_longitude P (input k).store_lon (poll_latitude P (input k).store_lat loc).1).1)
      (by omega)
      (fun j hj => by
        have := hrun (j + 1) (by omega)
        rwa [show k + (j + 1) = k + 1 + j by omega] at this)
      (by rwa [show k + (n + 1) = k + 1 + n by omega] at hstop)
    obtain ⟨h1, h2, h3, pre, h4⟩ := hrec
    refine ⟨?_, ?_, ?_, ?_⟩
    · simpa [thread_loop, h0] using h1
    · simp [thread_loop, h0, emissions, h2]
    · simp [thread_loop, h0, waits, h3, List.replicate_succ]
    · refine ⟨[Event.property_get GPS_LAT_PROP (poll_latitude P (input k).store_lat loc).2,
          Event.property_get GPS_LONG_PROP
            (poll_longitude P (input k).store_lon
              (poll_latitude P (input k).store_lat loc).1).2,
          Event.location_cb sink
            (stamp (input k).now
              (poll_longitude P (input k).store_lon
                (poll_latitude P (input k).store_lat loc).1).1),
          Event.lock (Actor.worker handle),
          Event.read_stopped (Actor.worker handle) false,
          Event.unlock (Actor.worker handle),
          Event.select POLL_USEC] ++ pre, ?_⟩
      simp only [thread_loop, if_true, h0, Bool.not_false, h4]
      simp

/-- The two views of the worker agree on a cycle: when the only worker is at the
loop test with `active` set, the callback table is bound and the mutex is free,
its next eight statements taken with nothing scheduled in between perform the
actions of one iteration of `thread_loop` on the store, clock and `stopped` of
that state, leave the same location, and bring the worker back to the loop test
with `active` the negation of `stopped`. -/
theorem step_cycle_eq_thread_loop {D : Type} (P : Platform D) (s : System D) (w : Worker)
    (sink : Nat) (hw : s.workers = [w]) (hpc : w.pc = WorkerPc.test)
    (hact : w.active = true) (hcb : s.ctx.cb = some sink)
    (hm : s.ctx.mutex = Mutex.unlocked) :
    ∃ s' w', run P s (List.replicate 8 (Label.worker w.handle)) = some s' ∧
      s'.trace = s.trace ++
        (thread_loop P w.handle (some sink)
          (fun _ => { store_lat := s.store, store_lon := s.store, now := s.now,
                      stopped := s.ctx.stopped }) 1 0 true s.ctx.location).events ∧
      s'.ctx.location =
        (thread_loop P w.handle (some sink)
          (fun _ => { store_lat := s.store, store_lon := s.store, now := s.now,
                      stopped := s.ctx.stopped }) 1 0 true s.ctx.location).location ∧
      s'.ctx.stopped = s.ctx.stopped ∧ s'.ctx.mutex = Mutex.unlocked ∧
      s'.workers = [w'] ∧ w'.handle = w.handle ∧ w'.pc = WorkerPc.test ∧
      w'.active = !s.ctx.stopped := by
  obtain ⟨handle, pc, active, lat, lon⟩ := w
  simp only at hpc hact
  subst hpc hact
  simp [run, step, worker_step, hw, hcb, hm, thread_loop, pthread_mutex_lock,
    pthread_mutex_unlock, List.replicate]

/-- The two views agree on the entry: the first statement of a newly created
worker reads `stopped` without the mutex and sets the flags, as
`thread_entry` does. -/
theorem step_entry_eq_thread_entry {D : Type} (P : Platform D) (s : System D) (h : Nat)
    (hw : s.workers = [Worker.spawn h]) :
    ∃ s' w', step P s (Label.worker h) = some s' ∧
      s'.trace = s.trace ++ [Event.read_stopped (Actor.worker h) s.ctx.stopped] ∧
      s'.ctx = (thread_entry P s.ctx).1 ∧
      s'.workers = [w'] ∧ w'.handle = h ∧ w'.pc = WorkerPc.test ∧
      w'.active = (thread_entry P s.ctx).2 := by
  simp [step, worker_step, hw, Worker.spawn]


/-- A statement of a worker keeps `MutexInv`. -/
theorem MutexInv_step_worker {D : Type} (P : Platform D) (s : System D) (h : Nat) (s' : System D)
    (hI : Inv s) (hM : MutexInv s) (hs : step P s (Label.worker h) = some s') : MutexInv s' := by
  have hlen := hI.one
  have hco := hM.caller_owns
  have hwo := hM.worker_owns
  cases hws : s.workers with
  | nil => simp [step, hws] at hs
  | cons w t =>
    cases t with
    | cons _ _ =>
      rw [hws] at hlen
      simp at hlen
    | nil =>
      obtain ⟨handle, pc, active, lat, lon⟩ := w
      by_cases hh : handle = h
      · subst hh
        simp only [hws, List.mem_singleton, exists_eq_left] at hwo
        cases pc with
        | done => simp [step, hws, worker_step] at hs
        | emit =>
          cases hcb : s.ctx.cb with
          | none => simp [step, hws, worker_step, hcb] at hs
          | some sink =>
            simp only [step, hws, worker_step, List.find?_cons, decide_True, hcb,
              Option.some.injEq] at hs
            subst hs
            constructor
            · exact hco
            · intro h' hm
              have := hwo h' hm
              simp at this
        | lock =>
          simp only [step, hws, worker_step, List.find?_cons, decide_True] at hs
          cases hmx : s.ctx.mutex with
          | locked a => simp [hmx, pthread_mutex_lock] at hs
          | unlocked =>
            simp only [hmx, pthread_mutex_lock, Option.some.injEq] at hs
            subst hs
            constructor <;> simp
          | zeroed =>
            simp only [hmx, pthread_mutex_lock, Option.some.injEq] at hs
            subst hs
            constructor <;> simp
          | destroyed =>
            simp only [hmx, pthread_mutex_lock, Option.some.injEq] at hs
            subst hs
            constructor <;> simp
        | unlock =>
          simp only [step, hws, worker_step, List.find?_cons, decide_True,
            Option.some.injEq] at hs
          subst hs
          cases hmx : s.ctx.mutex with
          | locked a =>
            cases a with
            | caller =>
              constructor
              · intro _
                exact hco hmx
              · intro h' hm
                simp [hmx, pthread_mutex_unlock] at hm
            | worker h' =>
              have := hwo h' hmx
              simp only [and_true, or_true] at this
              subst this
              constructor <;> simp [hmx, pthread_mutex_unlock]
          | unlocked => constructor <;> simp [hmx, pthread_mutex_unlock]
          | zeroed => constructor <;> simp [hmx, pthread_mutex_unlock]
          | destroyed => constructor <;> simp [hmx, pthread_mutex_unlock]
        | read =>
          simp only [step, hws, worker_step, List.find?_cons, decide_True,
            Option.some.injEq] at hs
          subst hs
          constructor
          · exact hco
          · intro h' hm
            have := hwo h' hm
            simp only [true_or, and_true] at this
            simp [this]
        | _ =>
          simp only [step, hws, worker_step, List.find?_cons, decide_True,
            Option.some.injEq] at hs
          subst hs
          constructor
          · exact hco
          · intro h' hm
            have := hwo h' hm
            simp at this
      · simp [step, hws, hh] at hs

/-- The freshly opened state satisfies `MutexInv`. -/
theorem MutexInv_open_gps {D : Type} (P : Platform D) (store : Store) (now : Int) :
    MutexInv (open_gps P store now) := by
  constructor <;> simp [open_gps, zero_ctx]

/-- Every step keeps `MutexInv`, given `Inv`. -/
theorem MutexInv_step {D : Type} (P : Platform D) (s : System D) (l : Label) (s' : System D)
    (hI : Inv s) (hM : MutexInv s) (hs : step P s l = some s') : MutexInv s' := by
  have hco := hM.caller_owns
  have hwo := hM.worker_owns
  cases l with
  | worker h => exact MutexInv_step_worker P s h s' hI hM hs
  | caller =>
    simp only [step] at hs
    split at hs
    · simp at hs
    rename_i hbusy
    simp only [prop_gps_stop] at hs
    split at hs
    · rename_i hidle
      exact absurd hidle hbusy
    · rename_i hc
      cases hmx : s.ctx.mutex with
      | locked a => simp [hmx, pthread_mutex_lock] at hs
      | unlocked =>
        simp only [hmx, pthread_mutex_lock, Option.some.injEq] at hs
        subst hs
        constructor <;> simp
      | zeroed =>
        simp only [hmx, pthread_mutex_lock, Option.some.injEq] at hs
        subst hs
        constructor <;> simp
      | destroyed =>
        simp only [hmx, pthread_mutex_lock, Option.some.injEq] at hs
        subst hs
        constructor <;> simp
    · simp only [Option.some.injEq] at hs
      subst hs
      exact ⟨fun _ => Or.inr rfl, hwo⟩
    · simp only [Option.some.injEq] at hs
      subst hs
      cases hmx : s.ctx.mutex with
      | locked a =>
        cases a with
        | caller => constructor <;> simp [hmx, pthread_mutex_unlock]
        | worker h' =>
          constructor
          · simp [hmx, pthread_mutex_unlock]
          · intro h'' hm
            apply hwo h''
            simpa [hmx, pthread_mutex_unlock] using hm
      | unlocked => constructor <;> simp [hmx, pthread_mutex_unlock]
      | zeroed => constructor <;> simp [hmx, pthread_mutex_unlock]
      | destroyed => constructor <;> simp [hmx, pthread_mutex_unlock]
    · rename_i hc
      have hnc : s.ctx.mutex ≠ Mutex.locked Actor.caller := by
        intro hm
        have := hco hm
        simp [hc] at this
      split at hs
      · simp only [Option.some.injEq] at hs
        subst hs
        exact ⟨fun hm => absurd hm hnc, hwo⟩
      · rename_i w hfind
        split at hs
        · rename_i hdone
          simp only [Option.some.injEq] at hs
          subst hs
          refine ⟨fun hm => absurd hm hnc, ?_⟩
          intro h' hm
          obtain ⟨w0, hw0, _, hpc⟩ := hwo h' hm
          exfalso
          have hone := hI.one
          cases hw : s.workers with
          | nil => simp [hw] at hw0
          | cons b t =>
            cases t with
            | cons c u =>
              rw [hw] at hone
              simp at hone
            | nil =>
              have hb : b.handle = s.ctx.thread := hI.mine b (by simp [hw])
              simp [hw, hb] at hfind
              simp [hw] at hw0
              rw [hw0, hfind, hdone] at hpc
              simp at hpc
        · simp at hs
  | property_set key value =>
    simp only [step, Option.some.injEq] at hs
    subst hs
    exact ⟨hco, hwo⟩
  | clock now =>
    simp only [step, Option.some.injEq] at hs
    subst hs
    exact ⟨hco, hwo⟩
  | start =>
    simp only [step] at hs
    split at hs
    · rename_i hc
      simp only [call, prop_gps_start] at hs
      by_cases hst : s.ctx.stopped = true
      · simp only [hst, if_true] at hs
        cases hcb : s.ctx.cb with
        | none => simp [hcb] at hs
        | some sink =>
          simp only [hcb, Option.some.injEq] at hs
          subst hs
          refine ⟨hco, ?_⟩
          intro h' hm
          obtain ⟨w0, hw0, hh, hpc⟩ := hwo h' hm
          exact ⟨w0, List.mem_append_left _ hw0, hh, hpc⟩
      · simp only [hst, Bool.false_eq_true, if_false, Option.some.injEq] at hs
        subst hs
        refine ⟨hco, ?_⟩
        intro h' hm
        obtain ⟨w0, hw0, hh, hpc⟩ := hwo h' hm
        exact ⟨w0, List.mem_append_left _ hw0, hh, hpc⟩
    · simp at hs
  | init callbacks =>
    simp only [step] at hs
    split at hs
    · rename_i hc
      simp only [call, Option.some.injEq] at hs
      subst hs
      by_cases hin : s.ctx.initialized = true
      · have hk : (prop_gps_init P callbacks s.ctx).ctx = s.ctx := by
          simp [prop_gps_init, hin]
        constructor
        · simpa [hk] using hco
        · simpa [hk] using hwo
      · have hk : (prop_gps_init P callbacks s.ctx).ctx.mutex = Mutex.unlocked := by
          simp [prop_gps_init, hin, pthread_mutex_init]
        constructor <;> simp [hk]
    · simp at hs
  | stop =>
    simp only [step] at hs
    split at hs
    · rename_i hc
      have hnc : s.ctx.mutex ≠ Mutex.locked Actor.caller := by
        intro hm
        have := hco hm
        simp [hc] at this
      simp only [call, prop_gps_stop, hc] at hs
      split at hs
      · simp only [Option.some.injEq] at hs
        subst hs
        exact ⟨fun hm => absurd hm hnc, hwo⟩
      · simp only [Option.some.injEq] at hs
        subst hs
        exact ⟨fun hm => absurd hm hnc, hwo⟩
    · simp at hs
  | cleanup =>
    simp only [step] at hs
    split at hs
    · simp only [call, prop_gps_cleanup, Option.some.injEq] at hs
      subst hs
      constructor <;> simp [pthread_mutex_destroy]
    · simp at hs
  | inject_time =>
    simp only [step] at hs
    split at hs
    · simp only [call, prop_gps_inject_time, Option.some.injEq] at hs
      subst hs
      exact ⟨hco, hwo⟩
    · simp at hs
  | inject_location =>
    simp only [step] at hs
    split at hs
    · simp only [call, prop_gps_inject_location, Option.some.injEq] at hs
      subst hs
      exact ⟨hco, hwo⟩
    · simp at hs
  | delete_aiding_data =>
    simp only [step] at hs
    split at hs
    · simp only [call, prop_gps_delete_aiding_data, Option.some.injEq] at hs
      subst hs
      exact ⟨hco, hwo⟩
    · simp at hs
  | set_position_mode =>
    simp only [step] at hs
    split at hs
    · simp only [call, prop_gps_set_position_mode, Option.some.injEq] at hs
      subst hs
      exact ⟨hco, hwo⟩
    · simp at hs
  | get_extension name =>
    simp only [step] at hs
    split at hs
    · simp only [call, Option.some.injEq] at hs
      subst hs
      exact ⟨hco, hwo⟩
    · simp at hs

/-- With `stopped` set, the callback table bound and the mutex not held by anyone
else, the only worker returns within eleven statements of its own. -/
theorem worker_finishes {D : Type} (P : Platform D) (s : System D) (w : Worker) (sink : Nat)
    (hw : s.workers = [w]) (hst : s.ctx.stopped = true) (hcb : s.ctx.cb = some sink)
    (hfree : ∀ a, s.ctx.mutex = Mutex.locked a →
      a = Actor.worker w.handle ∧ (w.pc = WorkerPc.read ∨ w.pc = WorkerPc.unlock)) :
    ∃ k, k ≤ 11 ∧ ∃ s' w', run P s (List.replicate k (Label.worker w.handle)) = some s' ∧
      s'.workers = [w'] ∧ w'.handle = w.handle ∧ w'.pc = WorkerPc.done ∧
      s'.caller = s.caller ∧ s'.ctx.thread = s.ctx.thread := by
  obtain ⟨handle, pc, active, lat, lon⟩ := w
  have hmx : s.ctx.mutex = Mutex.zeroed ∨ s.ctx.mutex = Mutex.unlocked ∨
      s.ctx.mutex = Mutex.destroyed ∨
      (s.ctx.mutex = Mutex.locked (Actor.worker handle) ∧
        (pc = WorkerPc.read ∨ pc = WorkerPc.unlock)) := by
    cases hm : s.ctx.mutex with
    | zeroed => simp
    | unlocked => simp
    | destroyed => simp
    | locked a =>
      obtain ⟨rfl, h⟩ := hfree a hm
      simpa using h
  cases pc with
  | entry =>
    refine ⟨2, by omega, ?_⟩
    simp [run, step, worker_step, hw, hst, thread_entry, List.replicate]
  | test =>
    cases active with
    | false =>
      refine ⟨1, by omega, ?_⟩
      simp [run, step, worker_step, hw, List.replicate]
    | true =>
      refine ⟨9, by omega, ?_⟩
      rcases hmx with hm | hm | hm | ⟨hm, hp⟩ <;>
        first
        | (exfalso; simp at hp)
        | simp [run, step, worker_step, hw, hst, hcb, hm, pthread_mutex_lock,
            pthread_mutex_unlock, List.replicate]
  | latitude =>
    refine ⟨8, by omega, ?_⟩
    rcases hmx with hm | hm | hm | ⟨hm, hp⟩ <;>
      first
      | (exfalso; simp at hp)
      | simp [run, step, worker_step, hw, hst, hcb, hm, pthread_mutex_lock,
          pthread_mutex_unlock, List.replicate]
  | longitude =>
    refine ⟨7, by omega, ?_⟩
    rcases hmx with hm | hm | hm | ⟨hm, hp⟩ <;>
      first
      | (exfalso; simp at hp)
      | simp [run, step, worker_step, hw, hst, hcb, hm, pthread_mutex_lock,
          pthread_mutex_unlock, List.replicate]
  | emit =>
    refine ⟨6, by omega, ?_⟩
    rcases hmx with hm | hm | hm | ⟨hm, hp⟩ <;>
      first
      | (exfalso; simp at hp)
      | simp [run, step, worker_step, hw, hst, hcb, hm, pthread_mutex_lock,
          pthread_mutex_unlock, List.replicate]
  | lock =>
    refine ⟨5, by omega, ?_⟩
    rcases hmx with hm | hm | hm | ⟨hm, hp⟩ <;>
      first
      | (exfalso; simp at hp)
      | simp [run, step, worker_step, hw, hst, hcb, hm, pthread_mutex_lock,
          pthread_mutex_unlock, List.replicate]
  | read =>
    refine ⟨4, by omega, ?_⟩
    rcases hmx with hm | hm | hm | ⟨hm, hp⟩ <;>
      simp [run, step, worker_step, hw, hst, hcb, hm, pthread_mutex_lock,
        pthread_mutex_unlock, List.replicate]
  | unlock =>
    cases active with
    | false =>
      refine ⟨3, by omega, ?_⟩
      rcases hmx with hm | hm | hm | ⟨hm, hp⟩ <;>
        simp [run, step, worker_step, hw, hst, hcb, hm, pthread_mutex_lock,
          pthread_mutex_unlock, List.replicate]
    | true =>
      refine ⟨11, by omega, ?_⟩
      rcases hmx with hm | hm | hm | ⟨hm, hp⟩ <;>
        simp [run, step, worker_step, hw, hst, hcb, hm, pthread_mutex_lock,
          pthread_mutex_unlock, List.replicate]
  | wait =>
    cases active with
    | false =>
      refine ⟨2, by omega, ?_⟩
      simp [run, step, worker_step, hw, hst, List.replicate]
    | true =>
      refine ⟨10, by omega, ?_⟩
      rcases hmx with hm | hm | hm | ⟨hm, hp⟩ <;>
        first
        | (exfalso; simp at hp)
        | simp [run, step, worker_step, hw, hst, hcb, hm, pthread_mutex_lock,
            pthread_mutex_unlock, List.replicate]
  | done =>
    refine ⟨0, by omega, ?_⟩
    simp [run, hw]

/-- A call of `prop_gps_stop` that has reached its `pthread_join` does return:
in every state reachable from the freshly opened one (by a schedule in which
`init` is never given `NULL`) in which the caller is at the join, letting the
worker named by `ctx.thread` run at most eleven statements leads to a state in
which the join completes. -/
theorem stop_join_completes {D : Type} (P : Platform D) (store : Store) (now : Int)
    (ls : List Label) (hls : ∀ l ∈ ls, l ≠ Label.init none) (s : System D)
    (h : run P (open_gps P store now) ls = some s) (hc : s.caller = CallerPc.stop_join) :
    ∃ k, k ≤ 11 ∧ ∃ s' s'',
      run P s (List.replicate k (Label.worker s.ctx.thread)) = some s' ∧
      step P s' Label.caller = some s'' ∧ s''.caller = CallerPc.idle ∧ s''.workers = [] := by
  have hI : Inv s := Inv_run P store now ls s h
  have hB : Bound s :=
    run_induction P Bound (fun l => l ≠ Label.init none)
      (fun t l t' hl hI ht => Bound_step P t l t' hl hI ht) ls _ s hls
      (Bound_open_gps P store now) h
  have hM : MutexInv s :=
    (run_induction P (fun t => Inv t ∧ MutexInv t) (fun _ => True)
      (fun t l t' _ hI ht => ⟨Inv_step P t l t' hI.1 ht, MutexInv_step P t l t' hI.1 hI.2 ht⟩)
      ls _ s (fun _ _ => trivial) ⟨Inv_open_gps P store now, MutexInv_open_gps P store now⟩ h).2
  have hst := hI.joining (Or.inr hc)
  cases hw : s.workers with
  | nil =>
    refine ⟨0, by omega, s,
      { s with
        caller := CallerPc.idle
        trace := s.trace ++
          [Event.join s.ctx.thread false, Event.returned Api.stop (some EXIT_SUCCESS)] },
      rfl, ?_, rfl, hw⟩
    simp [step, prop_gps_stop, hc, hw]
  | cons w t =>
    cases t with
    | cons c u =>
      have := hI.one
      rw [hw] at this
      simp at this
    | nil =>
      have hh : w.handle = s.ctx.thread := hI.mine w (by simp [hw])
      obtain ⟨sink, hcb⟩ : ∃ sink, s.ctx.cb = some sink := by
        have := hB.init_cb (hB.stopped_init hst)
        cases hcb : s.ctx.cb with
        | none => exact absurd hcb this
        | some sink => exact ⟨sink, rfl⟩
      have hfree : ∀ a, s.ctx.mutex = Mutex.locked a →
          a = Actor.worker w.handle ∧ (w.pc = WorkerPc.read ∨ w.pc = WorkerPc.unlock) := by
        intro a hm
        cases a with
        | caller =>
          have := hM.caller_owns hm
          simp [hc] at this
        | worker h' =>
          obtain ⟨w0, hw0, hh0, hpc⟩ := hM.worker_owns h' hm
          simp [hw] at hw0
          subst hw0
          exact ⟨by rw [hh0], hpc⟩
      obtain ⟨k, hk, s', w', hrun, hws', hh', hpc', hc', hth'⟩ :=
        worker_finishes P s w sink hw hst hcb hfree
      rw [hh] at hrun
      refine ⟨k, hk, s',
        { s' with
          workers := s'.workers.filter (fun x => x.handle ≠ s'.ctx.thread)
          caller := CallerPc.idle
          trace := s'.trace ++
            [Event.join s'.ctx.thread true, Event.returned Api.stop (some EXIT_SUCCESS)] },
        hrun, ?_, rfl, ?_⟩
      · simp [step, prop_gps_stop, hc', hc, hws', hth', hh', hh, hpc']
      · simp [hws', hth', hh', hh]

/-- C6: `prop_gps_init` always returns `EXIT_SUCCESS`; on an initialized context
it changes nothing and performs no action (the callback table is not reassigned,
the mutex is not constructed again), whatever table it is given; on a context
that is not initialized it binds the table, constructs the mutex and sets
`initialized`. -/
theorem C6_init_idempotent {D : Type} (P : Platform D) (ctx : prop_gps_context D)
    (cb cb2 : Option Nat) :
    (prop_gps_init P cb ctx).code = EXIT_SUCCESS ∧
    (ctx.initialized = true →
      (prop_gps_init P cb2 ctx).ctx = ctx ∧ (prop_gps_init P cb2 ctx).events = []) ∧
    (ctx.initialized = false →
      (prop_gps_init P cb ctx).ctx.cb = cb ∧
      (prop_gps_init P cb ctx).ctx.initialized = true ∧
      (prop_gps_init P cb ctx).ctx.mutex = Mutex.unlocked ∧
      (prop_gps_init P cb ctx).events = [Event.mutex_init] ∧
      (prop_gps_init P cb2 (prop_gps_init P cb ctx).ctx).ctx = (prop_gps_init P cb ctx).ctx) := by
  refine ⟨?_, ?_, ?_⟩
  · unfold prop_gps_init
    split <;> rfl
  · intro h
    simp [prop_gps_init, h]
  · intro h
    simp [prop_gps_init, h, pthread_mutex_init]

/-- C1 (the code does otherwise): from the freshly opened state, `init(cb)`
followed by `start()` leaves no worker: `create_thread_cb` is not invoked, the
recorded handle is still zero, and the only actions are the construction of the
mutex and the read of `stopped`, which is false. -/
theorem C1_init_start_spawns_nothing {D : Type} (P : Platform D) (store : Store)
    (now : Int) (cb : Nat) :
    (run P (open_gps P store now) [Label.init (some cb), Label.start]).map
        (fun s => (s.workers, s.created, s.ctx.thread, s.ctx.stopped, s.trace)) =
      some ([], 0, 0, false,
        [Event.mutex_init, Event.returned Api.init (some EXIT_SUCCESS),
         Event.read_stopped Actor.caller false,
         Event.returned Api.start (some EXIT_SUCCESS)]) := by
  rfl

/-- C3 (the code does otherwise): from the freshly opened state, `init(cb)`
followed by `stop()` calls `pthread_join` on the zero handle although no thread
was ever created, and a second `stop()` right after does so again; and once a
worker has been created and joined by a `stop()`, a second `stop()` calls
`pthread_join` on its handle again. -/
theorem C3_stop_joins_without_worker {D : Type} (P : Platform D) (store : Store)
    (now : Int) (cb : Nat) :
    (run P (open_gps P store now) ([Label.init (some cb)] ++ stop_call ++ stop_call)).map
        (fun s => (s.workers, s.created, s.trace)) =
      some ([], 0,
        [Event.mutex_init, Event.returned Api.init (some EXIT_SUCCESS),
         Event.lock Actor.caller, Event.write_stopped Actor.caller true,
         Event.unlock Actor.caller, Event.join 0 false,
         Event.returned Api.stop (some EXIT_SUCCESS),
         Event.lock Actor.caller, Event.write_stopped Actor.caller true,
         Event.unlock Actor.caller, Event.join 0 false,
         Event.returned Api.stop (some EXIT_SUCCESS)]) ∧
    (run P (open_gps P store now)
        ([Label.init (some cb)] ++ stop_call ++
          [Label.start, Label.stop, Label.caller, Label.caller, Label.caller,
           Label.worker 1, Label.worker 1, Label.caller] ++ stop_call)).map
        (fun s => (s.workers, s.created, s.trace)) =
      some ([], 1,
        [Event.mutex_init, Event.returned Api.init (some EXIT_SUCCESS),
         Event.lock Actor.caller, Event.write_stopped Actor.caller true,
         Event.unlock Actor.caller, Event.join 0 false,
         Event.returned Api.stop (some EXIT_SUCCESS),
         Event.read_stopped Actor.caller true, Event.write_stopped Actor.caller false,
         Event.create_thread cb 1, Event.returned Api.start (some EXIT_SUCCESS),
         Event.lock Actor.caller, Event.write_stopped Actor.caller true,
         Event.unlock Actor.caller, Event.read_stopped (Actor.worker 1) true,
         Event.join 1 true, Event.returned Api.stop (some EXIT_SUCCESS),
         Event.lock Actor.caller, Event.write_stopped Actor.caller true,
         Event.unlock Actor.caller, Event.join 1 false,
         Event.returned Api.stop (some EXIT_SUCCESS)]) := by
  constructor
  · rfl
  · simp [run, step, call, prop_gps_stop, stop_call, prop_gps_init, prop_gps_start, worker_step,
      thread_entry, spawned, open_gps, zero_ctx, Worker.spawn, pthread_mutex_lock,
      pthread_mutex_unlock, pthread_mutex_init, EXIT_SUCCESS]

/-- C9 (the code does otherwise): after `init(cb)`, `cleanup()`, `init(cb2)` the
context is still marked initialized while its mutex is destroyed (the second
`init` constructs nothing and keeps `cb`), and a following `stop()` reaches its
`pthread_mutex_lock` on that destroyed mutex. -/
theorem C9_initialized_with_destroyed_mutex {D : Type} (P : Platform D) (store : Store)
    (now : Int) (cb cb2 : Nat) :
    (run P (open_gps P store now)
        [Label.init (some cb), Label.cleanup, Label.init (some cb2), Label.stop]).map
        (fun s => (s.ctx.initialized, s.ctx.mutex, s.ctx.cb, s.caller, s.trace)) =
      some (true, Mutex.destroyed, some cb, CallerPc.stop_lock,
        [Event.mutex_init, Event.returned Api.init (some EXIT_SUCCESS),
         Event.mutex_destroy, Event.returned Api.cleanup none,
         Event.returned Api.init (some EXIT_SUCCESS)]) ∧
    (run P (open_gps P store now)
        [Label.init (some cb), Label.cleanup, Label.init (some cb2), Label.stop,
         Label.caller]).map
        (fun s => (s.ctx.mutex, s.caller, s.trace.getLast?)) =
      some (Mutex.destroyed, CallerPc.stop_write, some (Event.lock Actor.caller)) := by
  constructor <;> rfl

/-- C8 (the code does otherwise): in the schedule `init(cb)`, `stop()`, `start()`,
first statement of the new worker, three accesses to `stopped` are made without
the mutex: the read and the write of `prop_gps_start` and the worker's first
read. The write of `prop_gps_stop` is made under the mutex and is not among
them. -/
theorem C8_unguarded_accesses {D : Type} (P : Platform D) (store : Store)
    (now : Int) (cb : Nat) :
    (run P (open_gps P store now)
        ([Label.init (some cb)] ++ stop_call ++ [Label.start, Label.worker 1])).map
        (fun s => unguarded [] s.trace) =
      some [Event.read_stopped Actor.caller true, Event.write_stopped Actor.caller false,
        Event.read_stopped (Actor.worker 1) false] := by
  rfl

/-- C2: in every state reachable from the freshly opened one, under any schedule
of interface calls, worker statements and outside changes, at most one created
worker is not yet joined; and a `start()` that follows an earlier `start()` with
no call of `stop()` in between (whatever else happened meanwhile) creates no
thread and leaves the context unchanged: it only reads `stopped`, finds it
false, and returns success. -/
theorem C2_at_most_one_worker {D : Type} (P : Platform D) (store : Store) (now : Int)
    (ls : List Label) (s : System D)
    (h : run P (open_gps P store now) ls = some s) :
    s.workers.length ≤ 1 ∧
    ∀ (s1 : System D) (ls2 : List Label) (s2 s3 : System D),
      step P s Label.start = some s1 → Label.stop ∉ ls2 → run P s1 ls2 = some s2 →
      step P s2 Label.start = some s3 →
      s3.ctx = s2.ctx ∧ s3.workers = s2.workers ∧ s3.created = s2.created ∧
      s3.trace = s2.trace ++
        [Event.read_stopped Actor.caller false,
         Event.returned Api.start (some EXIT_SUCCESS)] := by
  refine ⟨(Inv_run P store now ls s h).one, ?_⟩
  intro s1 ls2 s2 s3 h1 hns h2 h3
  have hrun : s2.caller = CallerPc.idle ∧ s2.ctx.stopped = false :=
    run_induction P (fun t => t.caller = CallerPc.idle ∧ t.ctx.stopped = false)
      (fun l => l ≠ Label.stop) (fun t l t' hl hI ht => running_step P t l t' hl hI ht)
      ls2 s1 s2 (fun l hl heq => hns (heq ▸ hl)) (start_clears_stopped P s s1 h1) h2
  exact start_when_running P s2 s3 hrun.2 h3

/-- C2 at a concrete schedule: after `init`, `stop`, `start` one worker exists;
it runs two statements, `init` is called again, and the second `start` changes
nothing. -/
theorem C2_at_most_one_worker_witness :
    ∃ s s1 s2 s3 : System Double,
      run libcPlatform (open_gps libcPlatform [] 0) ([Label.init (some 7)] ++ stop_call) = some s ∧
      step libcPlatform s Label.start = some s1 ∧
      run libcPlatform s1 [Label.worker 1, Label.worker 1, Label.init (some 9)] = some s2 ∧
      step libcPlatform s2 Label.start = some s3 ∧
      s1.workers.length = 1 ∧ s.workers.length ≤ 1 ∧
      s3.ctx = s2.ctx ∧ s3.workers = s2.workers ∧ s3.created = s2.created ∧
      s3.trace = s2.trace ++
        [Event.read_stopped Actor.caller false,
         Event.returned Api.start (some EXIT_SUCCESS)] := by
  refine ⟨_, _, _, _, rfl, rfl, rfl, rfl, rfl, ?_⟩
  have h := C2_at_most_one_worker libcPlatform [] 0 ([Label.init (some 7)] ++ stop_call) _ rfl
  exact ⟨h.1, h.2 _ [Label.worker 1, Label.worker 1, Label.init (some 9)] _ _ rfl
    (by decide) rfl rfl⟩

/-- C4: in every state reachable from the freshly opened one in which the caller
is at the `pthread_join` of `prop_gps_stop`, the step that completes the join
happens only when every worker has returned; after it `stopped` is set and no
worker is left, and along any continuation that contains no call of `start()`
the fixes handed to `location_cb` stay exactly those handed before. -/
theorem C4_no_emission_after_stop {D : Type} (P : Platform D) (store : Store) (now : Int)
    (ls : List Label) (s : System D)
    (h : run P (open_gps P store now) ls = some s)
    (hc : s.caller = CallerPc.stop_join)
    (s1 : System D) (hj : step P s Label.caller = some s1)
    (ls2 : List Label) (hns : Label.start ∉ ls2)
    (s2 : System D) (h2 : run P s1 ls2 = some s2) :
    (∀ w ∈ s.workers, w.pc = WorkerPc.done) ∧ s1.ctx.stopped = true ∧ s1.workers = [] ∧
    s2.workers = [] ∧ emissions s2.trace = emissions s1.trace := by
  obtain ⟨hdone, hnil, hst, _, _⟩ := join_step P s s1 (Inv_run P store now ls s h) hc hj
  have hq : s2.workers = [] ∧ emissions s2.trace = emissions s1.trace :=
    run_induction P (fun t => t.workers = [] ∧ emissions t.trace = emissions s1.trace)
      (fun l => l ≠ Label.start)
      (fun t l t' hl hI ht =>
        ⟨(quiet_step P t l t' hl hI.1 ht).1, (quiet_step P t l t' hl hI.1 ht).2.trans hI.2⟩)
      ls2 s1 s2 (fun l hl heq => hns (heq ▸ hl)) ⟨hnil, rfl⟩ h2
  exact ⟨hdone, hst, hnil, hq⟩

/-- C4 at a concrete schedule: a worker is started and emits a fix, `stop()` sets
the flag, the worker finishes its cycle (one more fix) and returns, the join
completes; the calls and worker slots that follow add no fix. -/
theorem C4_no_emission_after_stop_witness :
    ∃ s s1 s2 : System Double,
      run libcPlatform (open_gps libcPlatform [("gps.latitude", "37")] 5) lifecycle_schedule
        = some s ∧
      s.caller = CallerPc.stop_join ∧
      step libcPlatform s Label.caller = some s1 ∧
      run libcPlatform s1 quiet_schedule = some s2 ∧
      (emissions s1.trace).length = 2 ∧
      ((∀ w ∈ s.workers, w.pc = WorkerPc.done) ∧ s1.ctx.stopped = true ∧ s1.workers = [] ∧
        s2.workers = [] ∧ emissions s2.trace = emissions s1.trace) := by
  refine ⟨_, _, _, rfl, rfl, rfl, rfl, rfl, ?_⟩
  exact C4_no_emission_after_stop libcPlatform [("gps.latitude", "37")] 5 lifecycle_schedule
    _ rfl rfl _ rfl quiet_schedule (by decide) _ rfl

/-- C10: in every state reachable from the freshly opened one by a schedule in
which `init` is never given `NULL` (any interleaving of `init`, `start`, `stop`,
`cleanup`, the auxiliary calls, worker statements and outside changes),
`stopped` implies `initialized`, `initialized` implies that the callback table
is bound, and a worker exists only with the table bound; hence `start()` never
dereferences `NULL`, and `start()` on a context that is not initialized only
reads `stopped` and returns: it creates no thread and touches no callback. -/
theorem C10_no_worker_without_callback {D : Type} (P : Platform D) (store : Store)
    (now : Int) (ls : List Label) (hls : ∀ l ∈ ls, l ≠ Label.init none) (s : System D)
    (h : run P (open_gps P store now) ls = some s) :
    (s.ctx.stopped = true → s.ctx.initialized = true) ∧
    (s.ctx.initialized = true → s.ctx.cb ≠ none) ∧
    (s.workers ≠ [] → s.ctx.cb ≠ none) ∧
    (s.caller = CallerPc.idle → (step P s Label.start).isSome = true) ∧
    (s.caller = CallerPc.idle → s.ctx.initialized = false →
      step P s Label.start = some { s with
        trace := s.trace ++
          [Event.read_stopped Actor.caller false,
           Event.returned Api.start (some EXIT_SUCCESS)] }) := by
  have hB : Bound s :=
    run_induction P Bound (fun l => l ≠ Label.init none)
      (fun t l t' hl hI ht => Bound_step P t l t' hl hI ht) ls _ s hls
      (Bound_open_gps P store now) h
  refine ⟨hB.stopped_init, hB.init_cb, fun hw => hB.init_cb (hB.worker_init hw), ?_, ?_⟩
  · intro hc
    exact start_defined P s hc (fun hst => hB.init_cb (hB.stopped_init hst))
  · intro hc hin
    have hst : s.ctx.stopped = false := by
      cases hb : s.ctx.stopped with
      | false => rfl
      | true => rw [hB.stopped_init hb] at hin; exact absurd hin (by decide)
    simp [step, hc, call, prop_gps_start, hst, spawned]

/-- C10 at a concrete schedule: `start` before any `init`, then `cleanup`, an
auxiliary call, `init`, `stop`, `start` and the first statements of the worker. -/
theorem C10_no_worker_without_callback_witness :
    ∃ s : System Double,
      run libcPlatform (open_gps libcPlatform [] 0)
        ([Label.start, Label.cleanup, Label.inject_time, Label.init (some 7)] ++ stop_call ++
          [Label.start, Label.worker 1, Label.worker 1]) = some s ∧
      s.workers ≠ [] ∧ s.ctx.cb = some 7 ∧
      ((s.ctx.stopped = true → s.ctx.initialized = true) ∧
      (s.ctx.initialized = true → s.ctx.cb ≠ none) ∧
      (s.workers ≠ [] → s.ctx.cb ≠ none) ∧
      (s.caller = CallerPc.idle → (step libcPlatform s Label.start).isSome = true) ∧
      (s.caller = CallerPc.idle → s.ctx.initialized = false →
        step libcPlatform s Label.start = some { s with
          trace := s.trace ++
            [Event.read_stopped Actor.caller false,
             Event.returned Api.start (some EXIT_SUCCESS)] })) := by
  refine ⟨_, rfl, by decide, rfl, ?_⟩
  exact C10_no_worker_without_callback libcPlatform [] 0
    ([Label.start, Label.cleanup, Label.inject_time, Label.init (some 7)] ++ stop_call ++
      [Label.start, Label.worker 1, Label.worker 1]) (by decide) _ rfl

/-- C5 as stated fails: with the latitude property `"12abc"` and the longitude
property `"nan"`, neither of them a number, the fix handed to `location_cb` has
latitude 12 and longitude NaN, not 0.0: `strtod` converts the initial `12` and
the word `nan`, and lines 71 and 75 store what it returns. -/
theorem C5_counterexample :
    (emissions (prop_gps_thread_main libcPlatform 1 initialized_ctx malformed_input 2).events).map
        (fun f => (f.latitude, f.longitude)) =
      [(Double.finite false 12, Double.nan)] ∧
    Double.finite false 12 ≠ libcPlatform.zero ∧ Double.nan ≠ libcPlatform.zero := by
  decide

/-- C5 (amended): in every run of the worker and for every content of the
property store, the fix handed to `location_cb` in cycle `k` has the latitude
and the longitude that `strtod` returns for what `readScalar` returns in that
same cycle for `"gps.latitude"` and `"gps.longitude"` with default `"0"`,
accuracy 1 and the flags `HAS_LAT_LONG | HAS_ACCURACY`. Given that `strtod`
yields 0.0 on `"0"`, a property that is absent or empty gives the field 0.0; a
property with a non-empty value `v` gives the field `strtod v`, whatever `v`
is. -/
theorem C5_fix_fields_as_parsed {D : Type} (P : Platform D)
    (hzero : P.strtod "0" = P.zero)
    (handle : Nat) (ctx : prop_gps_context D) (input : Nat → CycleInput) (fuel k : Nat)
    (fix : GpsLocation D)
    (hk : (emissions (prop_gps_thread_main P handle ctx input fuel).events)[k]? = some fix) :
    fix.latitude = P.strtod (readScalar (input k).store_lat "gps.latitude" "0") ∧
    fix.longitude = P.strtod (readScalar (input k).store_lon "gps.longitude" "0") ∧
    fix.accuracy = 1 ∧
    fix.flags = P.GPS_LOCATION_HAS_LAT_LONG ||| P.GPS_LOCATION_HAS_ACCURACY ∧
    ((input k).store_lat.lookup "gps.latitude" = none → fix.latitude = P.zero) ∧
    (∀ v, (input k).store_lat.lookup "gps.latitude" = some v →
      (v.length = 0 → fix.latitude = P.zero) ∧
      (v.length ≠ 0 → fix.latitude = P.strtod v)) ∧
    ((input k).store_lon.lookup "gps.longitude" = none → fix.longitude = P.zero) ∧
    (∀ v, (input k).store_lon.lookup "gps.longitude" = some v →
      (v.length = 0 → fix.longitude = P.zero) ∧
      (v.length ≠ 0 → fix.longitude = P.strtod v)) := by
  have hk' : (emissions (thread_loop P handle ctx.cb input fuel 0 (thread_entry P ctx).2
      (thread_entry P ctx).1.location).events)[k]? = some fix := by
    simpa [prop_gps_thread_main, emissions] using hk
  obtain ⟨hlat, hlon, hacc, hfl, _⟩ :=
    thread_loop_fix P handle ctx.cb input fuel 0 _ _ k fix (by simp [thread_entry]) hk'
  rw [Nat.zero_add] at hlat hlon
  have habsent : ∀ (store : Store) (key : String), store.lookup key = none →
      P.strtod (readScalar store key "0") = P.zero := by
    intro store key h
    simp [readScalar, h, hzero]
  have hpresent : ∀ (store : Store) (key v : String), store.lookup key = some v →
      (v.length = 0 → P.strtod (readScalar store key "0") = P.zero) ∧
      (v.length ≠ 0 → P.strtod (readScalar store key "0") = P.strtod v) := by
    intro store key v h
    constructor
    · intro hv
      simp [readScalar, h, hv, hzero]
    · intro hv
      simp [readScalar, h, hv]
  exact ⟨hlat, hlon, hacc, hfl, fun h => hlat.trans (habsent _ _ h),
    fun v h => ⟨fun hv => hlat.trans ((hpresent _ _ v h).1 hv),
      fun hv => hlat.trans ((hpresent _ _ v h).2 hv)⟩,
    fun h => hlon.trans (habsent _ _ h),
    fun v h => ⟨fun hv => hlon.trans ((hpresent _ _ v h).1 hv),
      fun hv => hlon.trans ((hpresent _ _ v h).2 hv)⟩⟩

/-- C5 (amended) at a concrete run: latitude property `"37"` in the first cycle
and `"north"` in the second, longitude property absent; the two fixes have
latitude 37 and 0.0 (`strtod` converts nothing of `"north"`) and longitude
0.0. -/
theorem C5_fix_fields_as_parsed_witness :
    (emissions (prop_gps_thread_main libcPlatform 1 initialized_ctx (sample_input 1) 5).events).map
        (fun f => (f.latitude, f.longitude, f.accuracy, f.flags)) =
      [(Double.finite false 37, Double.finite false 0, 1, 17),
       (Double.finite false 0, Double.finite false 0, 1, 17)] ∧
    ∃ fix : GpsLocation Double,
      (emissions (prop_gps_thread_main libcPlatform 1 initialized_ctx (sample_input 1) 5).events)[1]?
        = some fix ∧
      fix.latitude = libcPlatform.strtod "north" ∧
      fix.longitude = libcPlatform.zero := by
  refine ⟨by decide, _, rfl, ?_⟩
  have h := C5_fix_fields_as_parsed libcPlatform (by decide) 1 initialized_ctx (sample_input 1)
    5 1 _ rfl
  exact ⟨(h.2.2.2.2.2.1 "north" (by decide)).2 (by decide), h.2.2.2.2.2.2.1 (by decide)⟩

/-- C7 as stated fails: a run in which the first mutex-protected read of
`stopped` returns true hands out one fix and performs one wait of 50000
microseconds before it returns, not zero waits. -/
theorem C7_counterexample :
    (prop_gps_thread_main libcPlatform 1 initialized_ctx (sample_input 0) 2).status
      = Status.returned ∧
    (emissions (prop_gps_thread_main libcPlatform 1 initialized_ctx (sample_input 0) 2).events).length
      = 1 ∧
    waits (prop_gps_thread_main libcPlatform 1 initialized_ctx (sample_input 0) 2).events
      = [50000] ∧
    (waits (prop_gps_thread_main libcPlatform 1 initialized_ctx (sample_input 0) 2).events).length ≠
      (emissions
        (prop_gps_thread_main libcPlatform 1 initialized_ctx (sample_input 0) 2).events).length - 1 := by
  decide

/-- C7 (amended): a worker entered with `stopped` clear and a bound callback
table, whose mutex-protected read of `stopped` returns false in the first `n`
cycles and true in the next, returns (given fuel for `n + 2` loop tests) after
`n + 1` fixes and exactly `n + 1` waits, each of 50000 microseconds: the wait is
performed in every cycle, also in the one whose read returns true, where it
follows the read and the unlock and is the last action before the loop ends. -/
theorem C7_wait_in_every_cycle {D : Type} (P : Platform D) (handle sink : Nat)
    (ctx : prop_gps_context D) (input : Nat → CycleInput) (n fuel : Nat)
    (hcb : ctx.cb = some sink) (hst : ctx.stopped = false)
    (hrun : ∀ k < n, (input k).stopped = false) (hstop : (input n).stopped = true)
    (hf : n + 2 ≤ fuel) :
    (prop_gps_thread_main P handle ctx input fuel).status = Status.returned ∧
    (emissions (prop_gps_thread_main P handle ctx input fuel).events).length = n + 1 ∧
    waits (prop_gps_thread_main P handle ctx input fuel).events = List.replicate (n + 1) 50000 ∧
    ∃ pre, (prop_gps_thread_main P handle ctx input fuel).events =
      pre ++ [Event.read_stopped (Actor.worker handle) true,
        Event.unlock (Actor.worker handle), Event.select 50000] := by
  obtain ⟨h1, h2, h3, pre, h4⟩ :=
    thread_loop_run P handle sink input n fuel 0 (thread_entry P ctx).1.location hf
      (fun j hj => by simpa using hrun j hj) (by simpa using hstop)
  have he : (thread_entry P ctx).2 = true := by simp [thread_entry, hst]
  refine ⟨?_, ?_, ?_, ?_⟩
  · simpa [prop_gps_thread_main, hcb, he] using h1
  · simpa [prop_gps_thread_main, hcb, he, emissions] using h2
  · simpa [prop_gps_thread_main, hcb, he, waits, POLL_USEC] using h3
  · refine ⟨Event.read_stopped (Actor.worker handle) ctx.stopped :: pre, ?_⟩
    simp only [prop_gps_thread_main, hcb, he, h4]
    simp [POLL_USEC]

/-- C7 (amended) at a concrete run: `stopped` is read false in cycles 0 and 1 and
true in cycle 2; three fixes, three waits. -/
theorem C7_wait_in_every_cycle_witness :
    (prop_gps_thread_main libcPlatform 1 initialized_ctx (sample_input 2) 4).status
      = Status.returned ∧
    (emissions (prop_gps_thread_main libcPlatform 1 initialized_ctx (sample_input 2) 4).events).length
      = 2 + 1 ∧
    waits (prop_gps_thread_main libcPlatform 1 initialized_ctx (sample_input 2) 4).events
      = List.replicate (2 + 1) 50000 ∧
    ∃ pre, (prop_gps_thread_main libcPlatform 1 initialized_ctx (sample_input 2) 4).events =
      pre ++ [Event.read_stopped (Actor.worker 1) true,
        Event.unlock (Actor.worker 1), Event.select 50000] :=
  C7_wait_in_every_cycle libcPlatform 1 7 initialized_ctx (sample_input 2) 2 4 rfl rfl
    (by decide) (by decide) (by decide)

end PropGps
